import Mathlib

/-!
Shallow embedding of the WinColl game logic (rrthomas/wincoll).

The repository contains two implementations of the core logic:
- `src/wincoll/game.py` (class `Game`): tiles `GAP BRICK SAFE DIAMOND BLOB
  EARTH ROCK KEY WIN`, physics pass `Game.rockfall`, player movement
  `Game.can_move` / `Game.do_move`, `Game.unlock`, `Game.survey`,
  `Game.save_position` / `Game.load_position`.
- `src/wincoll/wincoll_game.py` (class `WincollGame`): tiles `EMPTY BRICK HERO
  SAFE DIAMOND BLOB EARTH ROCK KEY`, physics pass `WincollGame.update_map`,
  player movement `WincollGame.try_move`, `WincollGame.finished`.

The two tile sets coincide (`EMPTY` = `GAP`, `HERO` = `WIN`), so a single
`Tile` type is used, with the `game.py` names; in the embeddings of
`wincoll_game.py` code below, `Tile.GAP` stands for `Tile.GAP` and
`Tile.WIN` for `Tile.WIN`.

The grid is modelled at the tile level: the Python backing array stores
tileset gids and `Game.get`/`Game.set` translate through the gid table; for a
well-formed level every in-bounds cell's gid maps to exactly one tile, so the
array of tiles is the faithful state.  (The gid-level behaviour of `Game.get`,
including its handling of the 0 "missing" sentinel, is modelled separately by
`GidGame` below.)  Positions are integer pairs `(x, y)`, mirroring
`pygame.Vector2` coordinates as used by the sources (always integral there);
the backing array is modelled as a total function `y → x → Tile`, and
`Game.get` applies the bounds check of the source.
-/

/-- Tile kinds, from `Tile` in `src/wincoll/game.py` (the `StrEnum` values
`gap brick safe diamond blob earth rock key win`). -/
inductive Tile where
  | GAP
  | BRICK
  | SAFE
  | DIAMOND
  | BLOB
  | EARTH
  | ROCK
  | KEY
  | WIN
deriving DecidableEq, Repr

/-- A grid position `(x, y)`. -/
abbrev Pos := Int × Int

/-- Vector addition of positions (`Vector2.__add__`). -/
def padd (a b : Pos) : Pos := (a.1 + b.1, a.2 + b.2)

/-- Scalar multiplication of a position (`Vector2.__mul__`). -/
def pmul (n : Int) (a : Pos) : Pos := (n * a.1, n * a.2)

/-- The mutable game state shared by both implementations: grid dimensions
(`level_width`, `level_height`), the backing array of tiles
(`map_blocks[y][x]`, modelled at tile level), and the session fields
`hero.position`, `hero.velocity`, `dead`, `falling`, `diamonds`. -/
structure Game where
  level_width : Nat
  level_height : Nat
  blocks : Int → Int → Tile
  heroPos : Pos
  velocity : Pos
  dead : Bool
  falling : Bool
  diamonds : Int

/-- The bounds check of `Game.get`:
`(0 <= x < self.level_width) and (0 <= y < self.level_height)`. -/
def Game.inBounds (g : Game) (p : Pos) : Prop :=
  0 ≤ p.1 ∧ p.1 < (g.level_width : Int) ∧ 0 ≤ p.2 ∧ p.2 < (g.level_height : Int)

instance (g : Game) (p : Pos) : Decidable (g.inBounds p) := by
  unfold Game.inBounds
  exact inferInstance

/-- `Game.get` (src/wincoll/game.py lines 176-184), at tile level: anything
outside the map is a brick, otherwise the tile stored at `map_blocks[y][x]`.
(`WincollGame` inherits an equivalent `get` from its base class.) -/
def Game.get (g : Game) (p : Pos) : Tile :=
  if g.inBounds p then g.blocks p.2 p.1 else Tile.BRICK

/-- `Game.set` (src/wincoll/game.py lines 186-195), at tile level: overwrite
`map_blocks[y][x]` (the renderer notification is out of scope).  The source
performs no bounds check; the functional override makes an out-of-bounds
write invisible to `Game.get`. -/
def Game.set (g : Game) (p : Pos) (t : Tile) : Game :=
  { g with blocks := fun y x => if y = p.2 ∧ x = p.1 then t else g.blocks y x }

/-- `Game.can_roll` (src/wincoll/game.py lines 317-320). -/
def Game.can_roll (g : Game) (pos : Pos) : Bool :=
  g.get pos == Tile.GAP && g.get (pos.1, pos.2 + 1) == Tile.GAP

/-- `Game.can_move` (src/wincoll/game.py lines 289-302). -/
def Game.can_move (g : Game) (velocity : Pos) : Bool :=
  let newpos := padd g.heroPos velocity
  let block := g.get newpos
  if block = Tile.GAP ∨ block = Tile.EARTH ∨ block = Tile.DIAMOND ∨ block = Tile.KEY then
    true
  else if block = Tile.ROCK then
    let new_rockpos := padd g.heroPos (pmul 2 velocity)
    velocity.2 == 0 && g.get new_rockpos == Tile.GAP
  else
    false

/-- The safe-unlocking loop shared (textually identically) by `Game.unlock`
(src/wincoll/game.py lines 222-229) and the `Tile.KEY` branch of
`WincollGame.try_move` (src/wincoll/wincoll_game.py lines 125-133): one step
of `if block == Tile.SAFE: self.set(..., Tile.DIAMOND)`. -/
def safeStep (g : Game) (p : Pos) : Game :=
  if g.get p = Tile.SAFE then g.set p Tile.DIAMOND else g

/-- The full safe-unlocking double loop
(`for x in range(self.level_width): for y in range(self.level_height): ...`). -/
def safesToDiamonds (g : Game) : Game :=
  (List.range g.level_width).foldl
    (fun g1 x =>
      (List.range g.level_height).foldl
        (fun g2 y => safeStep g2 (Int.ofNat x, Int.ofNat y)) g1)
    g

/-- `Game.unlock` (src/wincoll/game.py lines 222-229); the sound effect is out
of scope. -/
def Game.unlock (g : Game) : Game := safesToDiamonds g

/-- `Game.do_move` (src/wincoll/game.py lines 304-315).  The hero's grid
position itself is animated by the sprite update, not changed here. -/
def Game.do_move (g : Game) : Game :=
  let newpos := padd g.heroPos g.velocity
  let block := g.get newpos
  let g1 :=
    if block = Tile.DIAMOND then { g with diamonds := g.diamonds - 1 }
    else if block = Tile.KEY then g.unlock
    else if block = Tile.ROCK then
      g.set (padd g.heroPos (pmul 2 g.velocity)) Tile.ROCK
    else g
  g1.set newpos Tile.GAP

/-- The local `fall` of `Game.rockfall` (src/wincoll/game.py lines 325-335):
if the block below the landing cell is the hero marker, set the death flag;
move the rock; record that a rock moved this pass (the slide sound is out of
scope). -/
def gfall (s : Game × Bool) (oldpos newpos : Pos) : Game × Bool :=
  let g := s.1
  let g1 := if g.get (newpos.1, newpos.2 + 1) = Tile.WIN then { g with dead := true } else g
  let g2 := (g1.set oldpos Tile.GAP).set newpos Tile.ROCK
  ({ g2 with falling := true }, true)

/-- One cell of the `Game.rockfall` scan (src/wincoll/game.py lines 337-357):
the body run for `pos = Vector2(col, row)`.  The raw read
`block == self.gids[Tile.ROCK]` is `blocks row col = Tile.ROCK` at tile
level. -/
def Game.rstep (s : Game × Bool) (col row : Int) : Game × Bool :=
  let g := s.1
  if g.blocks row col = Tile.ROCK then
    let pos : Pos := (col, row)
    let pos_below : Pos := (col, row + 1)
    let block_below := g.get pos_below
    if block_below = Tile.GAP then
      gfall s pos pos_below
    else if block_below = Tile.ROCK ∨ block_below = Tile.KEY ∨
        block_below = Tile.DIAMOND ∨ block_below = Tile.BLOB then
      if g.can_roll (col - 1, row) then gfall s pos (col - 1, row + 1)
      else if g.can_roll (col + 1, row) then gfall s pos (col + 1, row + 1)
      else s
    else s
  else s

/-- The scan of `Game.rockfall` (src/wincoll/game.py lines 337-357): rows
bottom to top (`reversed(list(enumerate(self.map_blocks)))`), columns left
to right, reading the state as mutated by falls already processed in the
same pass.  Returns the final state and the `new_fall` flag. -/
def Game.rockfallAux (g : Game) : Game × Bool :=
  ((List.range g.level_height).reverse).foldl
    (fun s row =>
      (List.range g.level_width).foldl
        (fun s2 col => Game.rstep s2 (Int.ofNat col) (Int.ofNat row)) s)
    (g, false)

/-- `Game.rockfall` (src/wincoll/game.py lines 322-361): run the scan, then
clear the falling flag if no rock moved. -/
def Game.rockfall (g : Game) : Game :=
  let res := g.rockfallAux
  if res.2 = false then { res.1 with falling := false } else res.1

/-- The physics pass as composed by the main loop of `Game.run`
(src/wincoll/game.py lines 432-436): put the hero marker into the map, run
`rockfall`, then restore the hero's cell to a gap. -/
def Game.physicsPass (g : Game) : Game :=
  ((g.set g.heroPos Tile.WIN).rockfall).set g.heroPos Tile.GAP

/-- `Game.survey` (src/wincoll/game.py lines 210-220): one step of the scan,
for position `p`. -/
def surveyStep (g : Game) (p : Pos) : Game :=
  let block := g.get p
  if block = Tile.DIAMOND ∨ block = Tile.SAFE then
    { g with diamonds := g.diamonds + 1 }
  else if block = Tile.WIN then
    ({ g with heroPos := p }).set p Tile.GAP
  else g

/-- `Game.survey` (src/wincoll/game.py lines 210-220): reset the diamond
count, then scan the whole grid counting diamonds and safes and extracting
the hero start position. -/
def Game.survey (g : Game) : Game :=
  (List.range g.level_width).foldl
    (fun g1 x =>
      (List.range g.level_height).foldl
        (fun g2 y => surveyStep g2 (Int.ofNat x, Int.ofNat y)) g1)
    { g with diamonds := 0 }

/-- `Game.save_position` (src/wincoll/game.py lines 197-200): write the hero
marker into the live grid at the hero's position, then serialize
`map_blocks`.  Returns the updated live state and the serialized snapshot. -/
def Game.save_position (g : Game) : Game × (Int → Int → Tile) :=
  let g1 := g.set g.heroPos Tile.WIN
  (g1, g1.blocks)

/-- `Game.load_position` (src/wincoll/game.py lines 202-208): if the
saved-position file exists (`file = some b`), replace the backing array and
re-survey; otherwise do nothing. -/
def Game.load_position (g : Game) (file : Option (Int → Int → Tile)) : Game :=
  match file with
  | none => g
  | some b => Game.survey { g with blocks := b }

/-- `WincollGame.finished` (src/wincoll/wincoll_game.py lines 222-223). -/
def WincollGame.finished (g : Game) : Bool :=
  g.diamonds == 0 || g.dead

/-- `WincollGame.try_move` (src/wincoll/wincoll_game.py lines 116-140):
validates the move and applies its item side effects; returns the updated
state and whether the move was accepted (sound effects out of scope). -/
def WincollGame.try_move (g : Game) (delta : Pos) : Game × Bool :=
  let newpos := padd g.heroPos delta
  let block := g.get newpos
  if block = Tile.GAP ∨ block = Tile.EARTH then (g, true)
  else if block = Tile.DIAMOND then ({ g with diamonds := g.diamonds - 1 }, true)
  else if block = Tile.KEY then (safesToDiamonds g, true)
  else if block = Tile.ROCK then
    let new_rockpos := padd g.heroPos (pmul 2 delta)
    if delta.2 = 0 ∧ g.get new_rockpos = Tile.GAP then
      ((g.set newpos Tile.GAP).set new_rockpos Tile.ROCK, true)
    else (g, false)
  else (g, false)

/-- `rock_to_roll` inside `WincollGame.update_map`
(src/wincoll/wincoll_game.py lines 145-154). -/
def WincollGame.rock_to_roll (g : Game) (pos : Pos) : Bool :=
  if g.get pos = Tile.ROCK then
    let block_below := g.get (pos.1, pos.2 + 1)
    block_below == Tile.ROCK || block_below == Tile.KEY ||
      block_below == Tile.DIAMOND || block_below == Tile.BLOB
  else false

/-- The local `fall` of `WincollGame.update_map`
(src/wincoll/wincoll_game.py lines 156-166): like `gfall` but the death flag
is only set when the level is not already finished. -/
def wfall (s : Game × Bool) (oldpos newpos : Pos) : Game × Bool :=
  let g := s.1
  let g1 :=
    if g.get (newpos.1, newpos.2 + 1) = Tile.WIN ∧ WincollGame.finished g = false then
      { g with dead := true }
    else g
  let g2 := (g1.set oldpos Tile.GAP).set newpos Tile.ROCK
  ({ g2 with falling := true }, true)

/-- One cell of the `WincollGame.update_map` scan
(src/wincoll/wincoll_game.py lines 174-190): the body run for
`pos = Vector2(x, y)`, considering for each empty space any rock above, then
a rock rolling in from above left, then from above right. -/
def WincollGame.wstep (s : Game × Bool) (x y : Int) : Game × Bool :=
  let g := s.1
  if g.get (x, y) = Tile.GAP then
    let block_above := g.get (x, y - 1)
    if block_above = Tile.ROCK then
      wfall s (x, y - 1) (x, y)
    else if block_above = Tile.GAP then
      if WincollGame.rock_to_roll g (x - 1, y - 1) then wfall s (x - 1, y - 1) (x, y)
      else if WincollGame.rock_to_roll g (x + 1, y - 1) then wfall s (x + 1, y - 1) (x, y)
      else s
    else s
  else s

/-- The scan of `WincollGame.update_map` (src/wincoll/wincoll_game.py lines
168-190): put the hero marker into the map, then scan rows bottom to top
(excluding the top row), columns left to right, reading the state as mutated
by falls already processed in the same pass.  Returns the final state and
the `new_fall` flag. -/
def WincollGame.updateMapAux (g : Game) : Game × Bool :=
  ((List.range (g.level_height - 1)).reverse).foldl
    (fun s i =>
      (List.range g.level_width).foldl
        (fun s2 x => WincollGame.wstep s2 (Int.ofNat x) (Int.ofNat i + 1)) s)
    (g.set g.heroPos Tile.WIN, false)

/-- `WincollGame.update_map` (src/wincoll/wincoll_game.py lines 142-195): run
the scan, clear the falling flag if no rock moved, and restore the hero's
cell to empty. -/
def WincollGame.update_map (g : Game) : Game :=
  let res := WincollGame.updateMapAux g
  let g2 :=
    if res.1.falling = true ∧ res.2 = false then { res.1 with falling := false }
    else res.1
  g2.set g.heroPos Tile.GAP

/-- The gid-level state behind `Game.get` (src/wincoll/game.py lines 176-184):
`map_blocks[y][x]` holds tileset gids (`0` = missing tile), and
`tile_properties` is pytmx's gid-to-properties table restricted to the
declared `type` of each tile; gids without an entry (in particular gid `0`)
map to `none`. -/
structure GidGame where
  level_width : Nat
  level_height : Nat
  map_blocks : Int → Int → Nat
  tile_properties : Nat → Option Tile

/-- `Game.get` at gid level (src/wincoll/game.py lines 176-184), exactly as
written: out of bounds returns `BRICK`; in bounds, the local variable
`block` is set to the stored gid and replaced by `Tile.GAP` when the gid is
`0`, but the returned value ignores `block` and is
`Tile(self.map_data.tmx.get_tile_properties(x, y, 0)["type"])`, i.e. the
properties-table entry for the stored gid; `none` models the exception
raised when that entry is missing (pytmx returns `None` for a gid absent
from `tile_properties`, and `None["type"]` raises `TypeError`). -/
def GidGame.get (g : GidGame) (p : Pos) : Option Tile :=
  if 0 ≤ p.1 ∧ p.1 < (g.level_width : Int) ∧ 0 ≤ p.2 ∧ p.2 < (g.level_height : Int) then
    g.tile_properties (g.map_blocks p.2 p.1)
  else
    some Tile.BRICK

/-!
Concrete example games used to witness the general theorems and to decide
the concrete 5x5 scenario of the specification: a 5x5 grid with an
all-brick border, interior all empty except a rock at (2,1), the hero at
(2,3).
-/

/-- The 5x5 rock-over-hero scenario grid (spec section 8): all-brick border,
interior empty except a rock at (2,1); hero at (2,3); one diamond remaining
(the level is in play). -/
def gameRock5 : Game where
  level_width := 5
  level_height := 5
  blocks := fun y x =>
    if x = 2 ∧ y = 1 then Tile.ROCK
    else if 1 ≤ x ∧ x ≤ 3 ∧ 1 ≤ y ∧ y ≤ 3 then Tile.GAP
    else Tile.BRICK
  heroPos := (2, 3)
  velocity := (0, 0)
  dead := false
  falling := false
  diamonds := 1

/-- A 5x5 game with a safe at (1,1), a diamond at (1,3) and a key at (3,3);
hero at (2,3) moving right towards the key. -/
def gameKey5 : Game where
  level_width := 5
  level_height := 5
  blocks := fun y x =>
    if x = 1 ∧ y = 1 then Tile.SAFE
    else if x = 1 ∧ y = 3 then Tile.DIAMOND
    else if x = 3 ∧ y = 3 then Tile.KEY
    else if 1 ≤ x ∧ x ≤ 3 ∧ 1 ≤ y ∧ y ≤ 3 then Tile.GAP
    else Tile.BRICK
  heroPos := (2, 3)
  velocity := (1, 0)
  dead := false
  falling := false
  diamonds := 3

/-- A gid-level game whose backing array holds the missing-tile sentinel 0 at
(0,0) and the gid 1 (an earth tile) everywhere else; the properties table
has no entry for gid 0, as in pytmx. -/
def gidGame0 : GidGame where
  level_width := 2
  level_height := 2
  map_blocks := fun y x => if x = 0 ∧ y = 0 then 0 else 1
  tile_properties := fun n => if n = 1 then some Tile.EARTH else none

/-!
Grid sums: sums of a per-cell weight over all in-bounds cells; used for the
diamond-plus-safe count and for the rock-row measure.
-/

/-- Sum of `f tile (x, y)` over all in-bounds cells of the grid. -/
def gridSum (g : Game) (f : Tile → Pos → Nat) : Nat :=
  ∑ q ∈ (Finset.range g.level_width) ×ˢ (Finset.range g.level_height),
    f (g.get ((q.1 : Int), (q.2 : Int))) ((q.1 : Int), (q.2 : Int))

/-- Weight function counting diamond and safe tiles. -/
def wDS : Tile → Pos → Nat := fun t _ => if t = Tile.DIAMOND ∨ t = Tile.SAFE then 1 else 0

/-- The count of diamond and safe tiles over the whole grid. -/
def countDS (g : Game) : Nat := gridSum g wDS

/-- Weight function summing the row indices of rock tiles: the sum increases
by one at every individual rock fall, so it strictly increases over a pass
that moves at least one rock. -/
def wRockRow : Tile → Pos → Nat := fun t p => if t = Tile.ROCK then p.2.toNat else 0

/-- The sum of the row indices of all rock tiles. -/
def rockRowSum (g : Game) : Nat := gridSum g wRockRow

/-- The per-tile effect of unlocking: safes become diamonds, everything else
is unchanged. -/
def safeMapT (t : Tile) : Tile := if t = Tile.SAFE then Tile.DIAMOND else t

/-- The list of positions visited by a `for x in range(w): for y in range(h)`
double loop, in visit order. -/
def prodList (w h : Nat) : List Pos :=
  (List.range w).flatMap fun x => (List.range h).map fun y => (Int.ofNat x, Int.ofNat y)

/-- The destination condition described by the specification for `can_move`
and `try_move`: destination Empty, Earth, Diamond or Key, or destination
Rock with a purely horizontal direction and the cell two steps away
empty. -/
def moveOK (g : Game) (d : Pos) : Prop :=
  (g.get (padd g.heroPos d) = Tile.GAP ∨ g.get (padd g.heroPos d) = Tile.EARTH ∨
    g.get (padd g.heroPos d) = Tile.DIAMOND ∨ g.get (padd g.heroPos d) = Tile.KEY) ∨
  (g.get (padd g.heroPos d) = Tile.ROCK ∧ d.2 = 0 ∧
    g.get (padd g.heroPos (pmul 2 d)) = Tile.GAP)

/-!
Basic lemmas about `Game.get` and `Game.set`.
-/

theorem Game.set_level_width (g : Game) (p : Pos) (t : Tile) :
    (g.set p t).level_width = g.level_width := rfl

theorem Game.set_level_height (g : Game) (p : Pos) (t : Tile) :
    (g.set p t).level_height = g.level_height := rfl

theorem Game.set_heroPos (g : Game) (p : Pos) (t : Tile) :
    (g.set p t).heroPos = g.heroPos := rfl

theorem Game.set_dead (g : Game) (p : Pos) (t : Tile) :
    (g.set p t).dead = g.dead := rfl

theorem Game.set_falling (g : Game) (p : Pos) (t : Tile) :
    (g.set p t).falling = g.falling := rfl

theorem Game.set_diamonds (g : Game) (p : Pos) (t : Tile) :
    (g.set p t).diamonds = g.diamonds := rfl

theorem Game.inBounds_set (g : Game) (p q : Pos) (t : Tile) :
    (g.set p t).inBounds q ↔ g.inBounds q := Iff.rfl

theorem Game.get_eq_blocks (g : Game) (p : Pos) (h : g.inBounds p) :
    g.get p = g.blocks p.2 p.1 := by
  simp [Game.get, h]

theorem Game.get_oob (g : Game) (p : Pos) (h : ¬ g.inBounds p) :
    g.get p = Tile.BRICK := by
  simp [Game.get, h]

theorem Game.inBounds_of_get_ne_brick (g : Game) (p : Pos)
    (h : g.get p ≠ Tile.BRICK) : g.inBounds p := by
  by_contra hc
  exact h (g.get_oob p hc)

theorem Game.get_set_self (g : Game) (p : Pos) (t : Tile) (h : g.inBounds p) :
    (g.set p t).get p = t := by
  simp [Game.get, Game.set, Game.inBounds] at *
  simp [h]

theorem Game.get_set_ne (g : Game) (p q : Pos) (t : Tile) (h : q ≠ p) :
    (g.set p t).get q = g.get q := by
  have hne : ¬ (q.2 = p.2 ∧ q.1 = p.1) := by
    intro hc
    exact h (Prod.ext hc.2 hc.1)
  simp [Game.get, Game.set, Game.inBounds, hne]

theorem Game.blocks_set_ne (g : Game) (p : Pos) (t : Tile) (y x : Int)
    (h : ¬ (y = p.2 ∧ x = p.1)) : (g.set p t).blocks y x = g.blocks y x := by
  simp [Game.set, h]

theorem Game.blocks_set_self (g : Game) (p : Pos) (t : Tile) :
    (g.set p t).blocks p.2 p.1 = t := by
  simp [Game.set]

/-!
Generic fold lemmas used to reason about the row/column scans.
-/

theorem foldl_fixed {σ α : Type} (f : σ → α → σ) (l : List α) (s : σ)
    (h : ∀ a ∈ l, f s a = s) : List.foldl f s l = s := by
  induction l with
  | nil => rfl
  | cons a l ih =>
    rw [List.foldl_cons, h a (List.mem_cons_self a l)]
    exact ih fun b hb => h b (List.mem_cons_of_mem a hb)

theorem foldl_inv {σ α : Type} (P : σ → Prop) (f : σ → α → σ) (l : List α) (s : σ)
    (h0 : P s) (hstep : ∀ s a, a ∈ l → P s → P (f s a)) : P (List.foldl f s l) := by
  induction l generalizing s with
  | nil => exact h0
  | cons a l ih =>
    rw [List.foldl_cons]
    exact ih (f s a) (hstep s a (List.mem_cons_self a l) h0)
      fun s2 b hb hp => hstep s2 b (List.mem_cons_of_mem a hb) hp

theorem gridSum_congr (g1 g2 : Game) (f : Tile → Pos → Nat)
    (hw : g1.level_width = g2.level_width) (hh : g1.level_height = g2.level_height)
    (h : ∀ p : Pos, g1.inBounds p → f (g1.get p) p = f (g2.get p) p) :
    gridSum g1 f = gridSum g2 f := by
  unfold gridSum
  rw [hw, hh]
  refine Finset.sum_congr rfl fun q hq => ?_
  simp only [Finset.mem_product, Finset.mem_range] at hq
  have hb : g1.inBounds ((q.1 : Int), (q.2 : Int)) := by
    simp only [Game.inBounds, hw, hh]
    omega
  exact h ((q.1 : Int), (q.2 : Int)) hb

theorem gridSum_set (g : Game) (f : Tile → Pos → Nat) (p : Pos) (t : Tile)
    (h : g.inBounds p) :
    gridSum (g.set p t) f + f (g.get p) p = gridSum g f + f t p := by
  obtain ⟨h1, h2, h3, h4⟩ := h
  set S := (Finset.range g.level_width) ×ˢ (Finset.range g.level_height) with hS
  set q : Nat × Nat := (p.1.toNat, p.2.toNat) with hq
  have hmem : q ∈ S := by
    simp only [hS, Finset.mem_product, Finset.mem_range, hq]
    omega
  have hcast : ((q.1 : Int), (q.2 : Int)) = p := by
    simp only [hq]
    exact Prod.ext (Int.toNat_of_nonneg h1) (Int.toNat_of_nonneg h3)
  have hself : (g.set p t).get ((q.1 : Int), (q.2 : Int)) = t := by
    rw [hcast]
    exact g.get_set_self p t ⟨h1, h2, h3, h4⟩
  have hrest : ∀ r ∈ S.erase q,
      (g.set p t).get ((r.1 : Int), (r.2 : Int)) = g.get ((r.1 : Int), (r.2 : Int)) := by
    intro r hr
    have hrne : r ≠ q := Finset.ne_of_mem_erase hr
    refine g.get_set_ne p ((r.1 : Int), (r.2 : Int)) t ?_
    intro hc
    apply hrne
    rw [← hcast, Prod.mk.injEq] at hc
    have hx : r.1 = q.1 := by exact_mod_cast hc.1
    have hy : r.2 = q.2 := by exact_mod_cast hc.2
    exact Prod.ext hx hy
  have e1 := Finset.sum_erase_add S
    (fun r => f ((g.set p t).get ((r.1 : Int), (r.2 : Int))) ((r.1 : Int), (r.2 : Int))) hmem
  have e2 := Finset.sum_erase_add S
    (fun r => f (g.get ((r.1 : Int), (r.2 : Int))) ((r.1 : Int), (r.2 : Int))) hmem
  have e3 : ∑ r ∈ S.erase q,
        f ((g.set p t).get ((r.1 : Int), (r.2 : Int))) ((r.1 : Int), (r.2 : Int))
      = ∑ r ∈ S.erase q, f (g.get ((r.1 : Int), (r.2 : Int))) ((r.1 : Int), (r.2 : Int)) :=
    Finset.sum_congr rfl fun r hr => by rw [hrest r hr]
  have hgoal1 : gridSum (g.set p t) f
      = ∑ r ∈ S.erase q, f (g.get ((r.1 : Int), (r.2 : Int))) ((r.1 : Int), (r.2 : Int))
        + f t p := by
    unfold gridSum
    rw [Game.set_level_width, Game.set_level_height, ← hS, ← e1, e3]
    simp only [hself, hcast, g.get_set_self p t ⟨h1, h2, h3, h4⟩]
  have hgoal2 : gridSum g f
      = ∑ r ∈ S.erase q, f (g.get ((r.1 : Int), (r.2 : Int))) ((r.1 : Int), (r.2 : Int))
        + f (g.get p) p := by
    unfold gridSum
    rw [← hS, ← e2]
    simp only [hcast]
  rw [hgoal1, hgoal2]
  omega

/-- Out-of-bounds writes do not change any grid sum. -/
theorem gridSum_set_oob (g : Game) (f : Tile → Pos → Nat) (p : Pos) (t : Tile)
    (h : ¬ g.inBounds p) :
    gridSum (g.set p t) f = gridSum g f := by
  refine gridSum_congr _ _ _ rfl rfl fun r hr => ?_
  rw [g.get_set_ne p r t ?_]
  intro hc
  rw [hc] at hr
  exact h hr

/-!
Pointwise characterization of the safe-unlocking loop.
-/

theorem safeMapT_idem (t : Tile) : safeMapT (safeMapT t) = safeMapT t := by
  cases t <;> rfl

theorem get_safeStep (g : Game) (p q : Pos) :
    (safeStep g p).get q = if q = p then safeMapT (g.get q) else g.get q := by
  by_cases hqp : q = p
  · subst hqp
    unfold safeStep safeMapT
    by_cases hs : g.get q = Tile.SAFE
    · have hb : g.inBounds q := by
        refine g.inBounds_of_get_ne_brick q ?_
        rw [hs]
        simp
      simp [hs, g.get_set_self q Tile.DIAMOND hb]
    · simp [hs]
  · unfold safeStep
    by_cases hs : g.get p = Tile.SAFE
    · simp [hs, g.get_set_ne p q Tile.DIAMOND hqp, hqp]
    · simp [hs, hqp]

theorem get_foldl_safeStep (L : List Pos) (g : Game) (q : Pos) :
    (List.foldl safeStep g L).get q
      = if q ∈ L then safeMapT (g.get q) else g.get q := by
  induction L generalizing g with
  | nil => simp
  | cons p L ih =>
    rw [List.foldl_cons, ih (safeStep g p)]
    by_cases hmem : q ∈ L
    · by_cases hqp : q = p <;>
        simp [hmem, hqp, get_safeStep, safeMapT_idem, List.mem_cons]
    · by_cases hqp : q = p <;>
        simp [hmem, hqp, get_safeStep, safeMapT_idem, List.mem_cons]

theorem foldl_safeStep_fields (L : List Pos) (g : Game) :
    (List.foldl safeStep g L).level_width = g.level_width ∧
    (List.foldl safeStep g L).level_height = g.level_height ∧
    (List.foldl safeStep g L).heroPos = g.heroPos ∧
    (List.foldl safeStep g L).diamonds = g.diamonds ∧
    (List.foldl safeStep g L).dead = g.dead := by
  induction L generalizing g with
  | nil => exact ⟨rfl, rfl, rfl, rfl, rfl⟩
  | cons p L ih =>
    rw [List.foldl_cons]
    have h2 := ih (safeStep g p)
    have h1 : (safeStep g p).level_width = g.level_width ∧
        (safeStep g p).level_height = g.level_height ∧
        (safeStep g p).heroPos = g.heroPos ∧
        (safeStep g p).diamonds = g.diamonds ∧
        (safeStep g p).dead = g.dead := by
      unfold safeStep
      by_cases hs : g.get p = Tile.SAFE <;> simp [hs, Game.set]
    exact ⟨h2.1.trans h1.1, h2.2.1.trans h1.2.1, h2.2.2.1.trans h1.2.2.1,
      h2.2.2.2.1.trans h1.2.2.2.1, h2.2.2.2.2.trans h1.2.2.2.2⟩

theorem mem_prodList (w h : Nat) (q : Pos) :
    q ∈ prodList w h ↔ 0 ≤ q.1 ∧ q.1 < (w : Int) ∧ 0 ≤ q.2 ∧ q.2 < (h : Int) := by
  unfold prodList
  constructor
  · intro hq
    rw [List.mem_flatMap] at hq
    obtain ⟨x, hx, hq⟩ := hq
    rw [List.mem_map] at hq
    obtain ⟨y, hy, rfl⟩ := hq
    rw [List.mem_range] at hx
    rw [List.mem_range] at hy
    show 0 ≤ (x : Int) ∧ (x : Int) < (w : Int) ∧ 0 ≤ (y : Int) ∧ (y : Int) < (h : Int)
    omega
  · intro hb
    obtain ⟨h1, h2, h3, h4⟩ := hb
    rw [List.mem_flatMap]
    refine ⟨q.1.toNat, ?_, ?_⟩
    · rw [List.mem_range]; omega
    · rw [List.mem_map]
      refine ⟨q.2.toNat, ?_, ?_⟩
      · rw [List.mem_range]; omega
      · exact Prod.ext (Int.toNat_of_nonneg h1) (Int.toNat_of_nonneg h3)

theorem foldl_safeStep_nested (xs : List Nat) (h : Nat) (g : Game) :
    List.foldl
        (fun g1 x =>
          List.foldl (fun g2 y => safeStep g2 (Int.ofNat x, Int.ofNat y)) g1 (List.range h))
        g xs
      = List.foldl safeStep g
          (xs.flatMap fun x => (List.range h).map fun y => (Int.ofNat x, Int.ofNat y)) := by
  induction xs generalizing g with
  | nil => rfl
  | cons x xs ih =>
    rw [List.foldl_cons, List.flatMap_cons, List.foldl_append, List.foldl_map, ih]

theorem safesToDiamonds_eq_foldl (g : Game) :
    safesToDiamonds g
      = List.foldl safeStep g (prodList g.level_width g.level_height) :=
  foldl_safeStep_nested (List.range g.level_width) g.level_height g

/-- Pointwise effect of the unlock loop: every safe becomes a diamond and no
other cell changes. -/
theorem get_safesToDiamonds (g : Game) (q : Pos) :
    (safesToDiamonds g).get q = safeMapT (g.get q) := by
  rw [safesToDiamonds_eq_foldl, get_foldl_safeStep]
  by_cases hmem : q ∈ prodList g.level_width g.level_height
  · simp [hmem]
  · have hoob : ¬ g.inBounds q := by
      rw [mem_prodList] at hmem
      exact fun hb => hmem hb
    rw [g.get_oob q hoob]
    simp [hmem, safeMapT]

theorem safesToDiamonds_level_width (g : Game) :
    (safesToDiamonds g).level_width = g.level_width := by
  rw [safesToDiamonds_eq_foldl]
  exact (foldl_safeStep_fields _ g).1

theorem safesToDiamonds_level_height (g : Game) :
    (safesToDiamonds g).level_height = g.level_height := by
  rw [safesToDiamonds_eq_foldl]
  exact (foldl_safeStep_fields _ g).2.1

/-- Unlocking preserves the combined diamond-plus-safe count. -/
theorem countDS_safesToDiamonds (g : Game) :
    countDS (safesToDiamonds g) = countDS g := by
  unfold countDS
  refine gridSum_congr _ _ _ (safesToDiamonds_level_width g)
    (safesToDiamonds_level_height g) fun p _ => ?_
  rw [get_safesToDiamonds]
  cases g.get p <;> rfl

/-!
Claim C3: move validation.
-/

/-- Claim C3: for every unit direction `d`, `Game.can_move` and
`WincollGame.try_move` accept the move exactly when the destination is
Empty, Earth, Diamond or Key, or it is Rock with `d` purely horizontal and
the cell two steps away Empty; a Brick, Safe or Blob destination is always
rejected, and a vertical push of a Rock is always rejected. -/
theorem claim_C3 (g : Game) (d : Pos)
    (_hd : d = (1, 0) ∨ d = (-1, 0) ∨ d = (0, 1) ∨ d = (0, -1)) :
    (g.can_move d = true ↔ moveOK g d) ∧
    ((WincollGame.try_move g d).2 = true ↔ moveOK g d) ∧
    ((g.get (padd g.heroPos d) = Tile.BRICK ∨ g.get (padd g.heroPos d) = Tile.SAFE ∨
        g.get (padd g.heroPos d) = Tile.BLOB) →
      g.can_move d = false ∧ (WincollGame.try_move g d).2 = false) ∧
    ((g.get (padd g.heroPos d) = Tile.ROCK ∧ d.2 ≠ 0) →
      g.can_move d = false ∧ (WincollGame.try_move g d).2 = false) := by
  have h1 : g.can_move d = true ↔ moveOK g d := by
    unfold Game.can_move moveOK
    rcases htile : g.get (padd g.heroPos d) <;>
      simp [htile, Bool.and_eq_true, beq_iff_eq]
  have h2 : (WincollGame.try_move g d).2 = true ↔ moveOK g d := by
    unfold WincollGame.try_move moveOK
    rcases htile : g.get (padd g.heroPos d) <;>
      simp [htile, Tile.GAP]
    by_cases hv : d.2 = 0 ∧ g.get (padd g.heroPos (pmul 2 d)) = Tile.GAP <;>
      simp [hv]
  refine ⟨h1, h2, ?_, ?_⟩
  · intro hbad
    have hno : ¬ moveOK g d := by
      unfold moveOK
      rcases hbad with hb | hb | hb <;> rw [hb] <;> simp
    constructor
    · rcases hcm : g.can_move d with _ | _
      · rfl
      · exact absurd (h1.mp hcm) hno
    · rcases htm : (WincollGame.try_move g d).2 with _ | _
      · rfl
      · exact absurd (h2.mp htm) hno
  · intro hbad
    have hno : ¬ moveOK g d := by
      unfold moveOK
      rw [hbad.1]
      simp [hbad.2]
    constructor
    · rcases hcm : g.can_move d with _ | _
      · rfl
      · exact absurd (h1.mp hcm) hno
    · rcases htm : (WincollGame.try_move g d).2 with _ | _
      · rfl
      · exact absurd (h2.mp htm) hno

/-- Witness for C3 at a concrete input: in `gameRock5`, moving up from the
hero at (2,3) reaches the empty cell (2,2) and is accepted; moving down
reaches the brick border and is rejected. -/
theorem claim_C3_witness :
    ((0, -1) = ((1, 0) : Pos) ∨ (0, -1) = ((-1, 0) : Pos) ∨
      (0, -1) = ((0, 1) : Pos) ∨ (0, -1) = ((0, -1) : Pos)) ∧
    (gameRock5.can_move (0, -1) = true ↔ moveOK gameRock5 (0, -1)) ∧
    gameRock5.can_move (0, -1) = true := by
  refine ⟨by decide, (claim_C3 gameRock5 (0, -1) (by decide)).1, by decide⟩

/-!
Claim C4: unlocking safes.
-/

/-- Claim C4: after a Key pickup — whether through `Game.unlock` or through
the Key branch of `WincollGame.try_move` — every Safe tile has become a
Diamond tile, no other cell changes, and the combined Diamond-plus-Safe
count is unchanged. -/
theorem claim_C4 (g gk : Game) (d : Pos)
    (hk : gk.get (padd gk.heroPos d) = Tile.KEY) :
    (∀ p : Pos, (g.unlock).get p
      = if g.get p = Tile.SAFE then Tile.DIAMOND else g.get p) ∧
    countDS g.unlock = countDS g ∧
    (∀ p : Pos, ((WincollGame.try_move gk d).1).get p
      = if gk.get p = Tile.SAFE then Tile.DIAMOND else gk.get p) := by
  refine ⟨fun p => get_safesToDiamonds g p, countDS_safesToDiamonds g, fun p => ?_⟩
  have hbranch : (WincollGame.try_move gk d).1 = safesToDiamonds gk := by
    simp only [WincollGame.try_move, hk]
    simp
  rw [hbranch]
  exact get_safesToDiamonds gk p

/-- Witness for C4: in `gameKey5` the hero's move right reaches the key at
(3,3); after the pickup the safe at (1,1) is a diamond, the diamond at (1,3)
is untouched, and the combined count is unchanged. -/
theorem claim_C4_witness :
    gameKey5.get (padd gameKey5.heroPos (1, 0)) = Tile.KEY ∧
    ((WincollGame.try_move gameKey5 (1, 0)).1).get (1, 1) = Tile.DIAMOND ∧
    countDS gameKey5.unlock = countDS gameKey5 := by
  have h := claim_C4 gameKey5 gameKey5 (1, 0) (by decide)
  refine ⟨by decide, ?_, h.2.1⟩
  rw [h.2.2 (1, 1)]
  decide

/-!
Claim C8: loading with no saved-position file.
-/

/-- Claim C8: `Game.load_position` with no saved-position file is a no-op:
the grid, the hero position and the diamond count are all unchanged (indeed
the whole state is returned unchanged), and there is no error path. -/
theorem claim_C8 (g : Game) :
    g.load_position none = g ∧
    (g.load_position none).blocks = g.blocks ∧
    (g.load_position none).heroPos = g.heroPos ∧
    (g.load_position none).diamonds = g.diamonds :=
  ⟨rfl, rfl, rfl, rfl⟩

/-!
Claim C10: save_position leaves the hero marker in the live grid.
-/

/-- Claim C10: `Game.save_position` writes the hero marker into the live
grid before serializing and never restores that cell: afterwards the live
grid holds the marker at the hero position, the serialized snapshot holds
it too, and every other cell of the live grid is unchanged. -/
theorem claim_C10 (g : Game) (h : g.inBounds g.heroPos) :
    (g.save_position).1.get g.heroPos = Tile.WIN ∧
    (g.save_position).2 g.heroPos.2 g.heroPos.1 = Tile.WIN ∧
    (∀ p : Pos, p ≠ g.heroPos → (g.save_position).1.get p = g.get p) := by
  refine ⟨?_, ?_, fun p hp => ?_⟩
  · exact g.get_set_self g.heroPos Tile.WIN h
  · exact g.blocks_set_self g.heroPos Tile.WIN
  · exact g.get_set_ne g.heroPos p Tile.WIN hp

/-- Witness for C10 at `gameRock5`: the hero cell (2,3) is in bounds; after
`save_position` the live grid and the snapshot hold the marker there. -/
theorem claim_C10_witness :
    gameRock5.inBounds gameRock5.heroPos ∧
    (gameRock5.save_position).1.get gameRock5.heroPos = Tile.WIN ∧
    (gameRock5.save_position).2 gameRock5.heroPos.2 gameRock5.heroPos.1 = Tile.WIN := by
  have h := claim_C10 gameRock5 (by decide)
  exact ⟨by decide, h.1, h.2.1⟩

/-!
Claim C6: the `Game.get` contract at gid level.
-/

/-- Claim C6 (code bug): the claim says an in-bounds cell whose backing value
is the zero "missing" sentinel reads as Empty, matching the source comment
"Missing tiles are gaps" and the (dead) assignment `block = Tile.GAP`; but
the returned expression ignores `block` and looks the stored gid up in the
tile-properties table, which has no entry for gid 0, so the call raises
(`none` here) instead of returning Empty.  Out-of-bounds positions do return
Brick, and cells whose gid is in the table do return the mapped tile. -/
theorem claim_C6 :
    gidGame0.get (0, 0) = none ∧
    gidGame0.get (0, 0) ≠ some Tile.GAP ∧
    gidGame0.get (1, 0) = some Tile.EARTH ∧
    gidGame0.get (-1, 0) = some Tile.BRICK ∧
    gidGame0.get (2, 1) = some Tile.BRICK := by
  decide

/-!
Effect lemmas for the per-fall helpers `gfall` and `wfall` and the per-cell
scan steps `Game.rstep` and `WincollGame.wstep`.
-/

theorem Game.get_update_falling (g : Game) (b : Bool) (q : Pos) :
    ({ g with falling := b } : Game).get q = g.get q := rfl

theorem Game.get_update_dead (g : Game) (b : Bool) (q : Pos) :
    ({ g with dead := b } : Game).get q = g.get q := rfl

theorem can_roll_parts (g : Game) (pos : Pos) (h : g.can_roll pos = true) :
    g.get (pos.1, pos.2 + 1) = Tile.GAP ∧ g.get pos = Tile.GAP := by
  unfold Game.can_roll at h
  rw [Bool.and_eq_true, beq_iff_eq, beq_iff_eq] at h
  exact ⟨h.2, h.1⟩

theorem gfall_snd (s : Game × Bool) (op np : Pos) : (gfall s op np).2 = true := rfl

theorem gfall_falling (s : Game × Bool) (op np : Pos) :
    (gfall s op np).1.falling = true := rfl

theorem gfall_dead (s : Game × Bool) (op np : Pos) :
    (gfall s op np).1.dead
      = if s.1.get (np.1, np.2 + 1) = Tile.WIN then true else s.1.dead := by
  simp only [gfall]
  split <;> rfl

theorem gfall_diamonds (s : Game × Bool) (op np : Pos) :
    (gfall s op np).1.diamonds = s.1.diamonds := by
  simp only [gfall]
  split <;> rfl

theorem gfall_heroPos (s : Game × Bool) (op np : Pos) :
    (gfall s op np).1.heroPos = s.1.heroPos := by
  simp only [gfall]
  split <;> rfl

theorem gfall_level_width (s : Game × Bool) (op np : Pos) :
    (gfall s op np).1.level_width = s.1.level_width := by
  simp only [gfall]
  split <;> rfl

theorem gfall_level_height (s : Game × Bool) (op np : Pos) :
    (gfall s op np).1.level_height = s.1.level_height := by
  simp only [gfall]
  split <;> rfl

theorem gfall_inBounds (s : Game × Bool) (op np q : Pos) :
    (gfall s op np).1.inBounds q ↔ s.1.inBounds q := by
  unfold Game.inBounds
  rw [gfall_level_width, gfall_level_height]

theorem gfall_get_other (s : Game × Bool) (op np q : Pos)
    (h1 : q ≠ op) (h2 : q ≠ np) : (gfall s op np).1.get q = s.1.get q := by
  simp only [gfall]
  split <;>
    simp only [Game.get_update_falling, Game.get_update_dead,
      Game.get_set_ne _ _ _ _ h2, Game.get_set_ne _ _ _ _ h1]

theorem gfall_get_np (s : Game × Bool) (op np : Pos) (hb : s.1.inBounds np) :
    (gfall s op np).1.get np = Tile.ROCK := by
  simp only [gfall]
  split <;>
    (rw [Game.get_update_falling]; exact Game.get_set_self _ np Tile.ROCK hb)

theorem gfall_get_op (s : Game × Bool) (op np : Pos) (hne : op ≠ np)
    (hb : s.1.inBounds op) : (gfall s op np).1.get op = Tile.GAP := by
  simp only [gfall]
  split <;>
    rw [Game.get_update_falling, Game.get_set_ne _ _ _ _ hne] <;>
    exact Game.get_set_self _ op Tile.GAP hb

theorem wfall_snd (s : Game × Bool) (op np : Pos) : (wfall s op np).2 = true := rfl

theorem wfall_falling (s : Game × Bool) (op np : Pos) :
    (wfall s op np).1.falling = true := rfl

theorem wfall_dead (s : Game × Bool) (op np : Pos) :
    (wfall s op np).1.dead
      = if s.1.get (np.1, np.2 + 1) = Tile.WIN ∧ WincollGame.finished s.1 = false
        then true else s.1.dead := by
  simp only [wfall]
  split <;> rfl

theorem wfall_diamonds (s : Game × Bool) (op np : Pos) :
    (wfall s op np).1.diamonds = s.1.diamonds := by
  simp only [wfall]
  split <;> rfl

theorem wfall_heroPos (s : Game × Bool) (op np : Pos) :
    (wfall s op np).1.heroPos = s.1.heroPos := by
  simp only [wfall]
  split <;> rfl

theorem wfall_level_width (s : Game × Bool) (op np : Pos) :
    (wfall s op np).1.level_width = s.1.level_width := by
  simp only [wfall]
  split <;> rfl

theorem wfall_level_height (s : Game × Bool) (op np : Pos) :
    (wfall s op np).1.level_height = s.1.level_height := by
  simp only [wfall]
  split <;> rfl

theorem wfall_inBounds (s : Game × Bool) (op np q : Pos) :
    (wfall s op np).1.inBounds q ↔ s.1.inBounds q := by
  unfold Game.inBounds
  rw [wfall_level_width, wfall_level_height]

theorem wfall_get_other (s : Game × Bool) (op np q : Pos)
    (h1 : q ≠ op) (h2 : q ≠ np) : (wfall s op np).1.get q = s.1.get q := by
  simp only [wfall]
  split <;>
    simp only [Game.get_update_falling, Game.get_update_dead,
      Game.get_set_ne _ _ _ _ h2, Game.get_set_ne _ _ _ _ h1]

theorem wfall_get_np (s : Game × Bool) (op np : Pos) (hb : s.1.inBounds np) :
    (wfall s op np).1.get np = Tile.ROCK := by
  simp only [wfall]
  split <;>
    (rw [Game.get_update_falling]; exact Game.get_set_self _ np Tile.ROCK hb)

theorem wfall_get_op (s : Game × Bool) (op np : Pos) (hne : op ≠ np)
    (hb : s.1.inBounds op) : (wfall s op np).1.get op = Tile.GAP := by
  simp only [wfall]
  split <;>
    rw [Game.get_update_falling, Game.get_set_ne _ _ _ _ hne] <;>
    exact Game.get_set_self _ op Tile.GAP hb

/-- Every execution of `Game.rstep` is either a no-op or one call of `fall`
moving the rock at `(col, row)` into an empty cell one row further down. -/
theorem rstep_cases (s : Game × Bool) (col row : Int) :
    Game.rstep s col row = s ∨
    ∃ np : Pos, Game.rstep s col row = gfall s (col, row) np ∧
      s.1.blocks row col = Tile.ROCK ∧ s.1.get np = Tile.GAP ∧ np.2 = row + 1 := by
  simp only [Game.rstep]
  split
  case isTrue h1 =>
    split
    case isTrue h2 => exact Or.inr ⟨(col, row + 1), rfl, h1, h2, rfl⟩
    case isFalse h2 =>
      split
      case isTrue h3 =>
        split
        case isTrue h4 =>
          exact Or.inr ⟨(col - 1, row + 1), rfl, h1, (can_roll_parts _ _ h4).1, rfl⟩
        case isFalse h4 =>
          split
          case isTrue h5 =>
            exact Or.inr ⟨(col + 1, row + 1), rfl, h1, (can_roll_parts _ _ h5).1, rfl⟩
          case isFalse h5 => exact Or.inl rfl
      case isFalse h3 => exact Or.inl rfl
  case isFalse h1 => exact Or.inl rfl

theorem rock_to_roll_rock (g : Game) (pos : Pos)
    (h : WincollGame.rock_to_roll g pos = true) : g.get pos = Tile.ROCK := by
  unfold WincollGame.rock_to_roll at h
  revert h
  split
  case isTrue h5 => exact fun _ => h5
  case isFalse h5 => exact fun hc => absurd hc (by simp)

/-- Every execution of `WincollGame.wstep` is either a no-op or one call of
`fall` moving a rock from the row above into the empty cell `(x, y)`. -/
theorem wstep_cases (s : Game × Bool) (x y : Int) :
    WincollGame.wstep s x y = s ∨
    ∃ op : Pos, WincollGame.wstep s x y = wfall s op (x, y) ∧
      s.1.get (x, y) = Tile.GAP ∧ s.1.get op = Tile.ROCK ∧ op.2 = y - 1 := by
  simp only [WincollGame.wstep]
  split
  case isTrue h1 =>
    split
    case isTrue h2 => exact Or.inr ⟨(x, y - 1), rfl, h1, h2, rfl⟩
    case isFalse h2 =>
      split
      case isTrue h3 =>
        split
        case isTrue h4 =>
          exact Or.inr ⟨(x - 1, y - 1), rfl, h1, rock_to_roll_rock _ _ h4, rfl⟩
        case isFalse h4 =>
          split
          case isTrue h5 =>
            exact Or.inr ⟨(x + 1, y - 1), rfl, h1, rock_to_roll_rock _ _ h5, rfl⟩
          case isFalse h5 => exact Or.inl rfl
      case isFalse h3 => exact Or.inl rfl
  case isFalse h1 => exact Or.inl rfl

/-!
Counting lemmas for the physics pass and the player move.
-/

theorem gridSum_update_falling (g : Game) (b : Bool) (f : Tile → Pos → Nat) :
    gridSum ({ g with falling := b } : Game) f = gridSum g f := rfl

theorem gridSum_update_dead (g : Game) (b : Bool) (f : Tile → Pos → Nat) :
    gridSum ({ g with dead := b } : Game) f = gridSum g f := rfl

theorem gridSum_update_diamonds (g : Game) (n : Int) (f : Tile → Pos → Nat) :
    gridSum ({ g with diamonds := n } : Game) f = gridSum g f := rfl

/-- The combined effect on any grid sum of one `fall`: the source cell goes
from Rock to Gap and the destination cell from Gap to Rock. -/
theorem gridSum_fall (g : Game) (f : Tile → Pos → Nat) (op np : Pos)
    (hop : g.inBounds op) (hnp : g.inBounds np) (hne : np ≠ op) :
    gridSum ((g.set op Tile.GAP).set np Tile.ROCK) f
        + f (g.get op) op + f (g.get np) np
      = gridSum g f + f Tile.GAP op + f Tile.ROCK np := by
  have e1 := gridSum_set g f op Tile.GAP hop
  have e2 := gridSum_set (g.set op Tile.GAP) f np Tile.ROCK hnp
  rw [Game.get_set_ne _ _ _ _ hne] at e2
  omega

theorem countDS_gfall (s : Game × Bool) (op np : Pos)
    (hop : s.1.inBounds op) (hrock : s.1.get op = Tile.ROCK)
    (hnp : s.1.get np = Tile.GAP) (hne : np ≠ op) :
    countDS (gfall s op np).1 = countDS s.1 := by
  have hnpb : s.1.inBounds np := by
    refine s.1.inBounds_of_get_ne_brick np ?_
    rw [hnp]
    simp
  have w1 : wDS Tile.ROCK op = 0 := rfl
  have w2 : wDS Tile.GAP op = 0 := rfl
  have w3 : wDS Tile.GAP np = 0 := rfl
  have w4 : wDS Tile.ROCK np = 0 := rfl
  have e := gridSum_fall s.1 wDS op np hop hnpb hne
  rw [hrock, hnp, w1, w2, w3, w4] at e
  have e2 : gridSum ((s.1.set op Tile.GAP).set np Tile.ROCK) wDS = gridSum s.1 wDS := by
    omega
  unfold countDS
  simp only [gfall]
  split <;> (rw [gridSum_update_falling]; exact e2)

theorem countDS_wfall (s : Game × Bool) (op np : Pos)
    (hop : s.1.inBounds op) (hrock : s.1.get op = Tile.ROCK)
    (hnp : s.1.get np = Tile.GAP) (hne : np ≠ op) :
    countDS (wfall s op np).1 = countDS s.1 := by
  have hnpb : s.1.inBounds np := by
    refine s.1.inBounds_of_get_ne_brick np ?_
    rw [hnp]
    simp
  have w1 : wDS Tile.ROCK op = 0 := rfl
  have w2 : wDS Tile.GAP op = 0 := rfl
  have w3 : wDS Tile.GAP np = 0 := rfl
  have w4 : wDS Tile.ROCK np = 0 := rfl
  have e := gridSum_fall s.1 wDS op np hop hnpb hne
  rw [hrock, hnp, w1, w2, w3, w4] at e
  have e2 : gridSum ((s.1.set op Tile.GAP).set np Tile.ROCK) wDS = gridSum s.1 wDS := by
    omega
  unfold countDS
  simp only [wfall]
  split <;> (rw [gridSum_update_falling]; exact e2)

theorem rockRowSum_gfall (s : Game × Bool) (op np : Pos)
    (hop : s.1.inBounds op) (hrock : s.1.get op = Tile.ROCK)
    (hnp : s.1.get np = Tile.GAP) (hdown : np.2 = op.2 + 1) :
    rockRowSum (gfall s op np).1 = rockRowSum s.1 + 1 := by
  have hne : np ≠ op := by
    intro hc
    rw [hc] at hdown
    omega
  have hnpb : s.1.inBounds np := by
    refine s.1.inBounds_of_get_ne_brick np ?_
    rw [hnp]
    simp
  have hy0 : 0 ≤ op.2 := hop.2.2.1
  have htn : np.2.toNat = op.2.toNat + 1 := by omega
  have v1 : wRockRow Tile.ROCK op = op.2.toNat := rfl
  have v2 : wRockRow Tile.GAP op = 0 := rfl
  have v3 : wRockRow Tile.GAP np = 0 := rfl
  have v4 : wRockRow Tile.ROCK np = np.2.toNat := rfl
  have e := gridSum_fall s.1 wRockRow op np hop hnpb hne
  rw [hrock, hnp, v1, v2, v3, v4] at e
  have e2 : gridSum ((s.1.set op Tile.GAP).set np Tile.ROCK) wRockRow
      = gridSum s.1 wRockRow + 1 := by
    omega
  unfold rockRowSum
  simp only [gfall]
  split <;> (rw [gridSum_update_falling]; exact e2)

theorem rockRowSum_wfall (s : Game × Bool) (op np : Pos)
    (hop : s.1.inBounds op) (hrock : s.1.get op = Tile.ROCK)
    (hnp : s.1.get np = Tile.GAP) (hdown : np.2 = op.2 + 1) :
    rockRowSum (wfall s op np).1 = rockRowSum s.1 + 1 := by
  have hne : np ≠ op := by
    intro hc
    rw [hc] at hdown
    omega
  have hnpb : s.1.inBounds np := by
    refine s.1.inBounds_of_get_ne_brick np ?_
    rw [hnp]
    simp
  have hy0 : 0 ≤ op.2 := hop.2.2.1
  have htn : np.2.toNat = op.2.toNat + 1 := by omega
  have v1 : wRockRow Tile.ROCK op = op.2.toNat := rfl
  have v2 : wRockRow Tile.GAP op = 0 := rfl
  have v3 : wRockRow Tile.GAP np = 0 := rfl
  have v4 : wRockRow Tile.ROCK np = np.2.toNat := rfl
  have e := gridSum_fall s.1 wRockRow op np hop hnpb hne
  rw [hrock, hnp, v1, v2, v3, v4] at e
  have e2 : gridSum ((s.1.set op Tile.GAP).set np Tile.ROCK) wRockRow
      = gridSum s.1 wRockRow + 1 := by
    omega
  unfold rockRowSum
  simp only [wfall]
  split <;> (rw [gridSum_update_falling]; exact e2)

theorem countDS_update_falling (g : Game) (b : Bool) :
    countDS ({ g with falling := b } : Game) = countDS g := rfl

theorem countDS_update_diamonds (g : Game) (n : Int) :
    countDS ({ g with diamonds := n } : Game) = countDS g := rfl

theorem rockRowSum_update_falling (g : Game) (b : Bool) :
    rockRowSum ({ g with falling := b } : Game) = rockRowSum g := rfl

theorem Game.get_update_diamonds (g : Game) (n : Int) (q : Pos) :
    ({ g with diamonds := n } : Game).get q = g.get q := rfl

theorem inBounds_congr (g1 g2 : Game) (p : Pos)
    (hw : g1.level_width = g2.level_width) (hh : g1.level_height = g2.level_height) :
    g1.inBounds p ↔ g2.inBounds p := by
  unfold Game.inBounds
  rw [hw, hh]

/-- Invariants of the `rockfall` scan: dimensions and the diamond-plus-safe
count are preserved; if `new_fall` is still false the state is untouched; if
`new_fall` is true, the falling flag is set and the rock-row measure has
strictly increased. -/
theorem rockfallAux_inv (g : Game) :
    (g.rockfallAux).1.level_width = g.level_width ∧
    (g.rockfallAux).1.level_height = g.level_height ∧
    countDS (g.rockfallAux).1 = countDS g ∧
    ((g.rockfallAux).2 = false → (g.rockfallAux).1 = g) ∧
    ((g.rockfallAux).2 = true → (g.rockfallAux).1.falling = true ∧
      rockRowSum (g.rockfallAux).1 ≥ rockRowSum g + 1) := by
  unfold Game.rockfallAux
  refine foldl_inv (fun s : Game × Bool =>
      s.1.level_width = g.level_width ∧ s.1.level_height = g.level_height ∧
      countDS s.1 = countDS g ∧ (s.2 = false → s.1 = g) ∧
      (s.2 = true → s.1.falling = true ∧ rockRowSum s.1 ≥ rockRowSum g + 1))
    _ _ _ ⟨rfl, rfl, rfl, fun _ => rfl, by simp⟩ ?_
  intro s row hrow hP
  refine foldl_inv (fun s : Game × Bool =>
      s.1.level_width = g.level_width ∧ s.1.level_height = g.level_height ∧
      countDS s.1 = countDS g ∧ (s.2 = false → s.1 = g) ∧
      (s.2 = true → s.1.falling = true ∧ rockRowSum s.1 ≥ rockRowSum g + 1))
    _ _ _ hP ?_
  intro s2 col hcol hP2
  rcases rstep_cases s2 (Int.ofNat col) (Int.ofNat row) with hid | ⟨np, heq, hrock, hnp, hnp2⟩
  · rw [hid]
    exact hP2
  · rw [heq]
    obtain ⟨hw, hh, hc, hfalse, htrue⟩ := hP2
    rw [List.mem_reverse, List.mem_range] at hrow
    rw [List.mem_range] at hcol
    have hop : s2.1.inBounds (Int.ofNat col, Int.ofNat row) := by
      simp only [Game.inBounds, hw, hh]
      refine ⟨?_, ?_, ?_, ?_⟩ <;> simp <;> omega
    have hrock2 : s2.1.get (Int.ofNat col, Int.ofNat row) = Tile.ROCK := by
      rw [Game.get_eq_blocks _ _ hop]
      exact hrock
    have hne : np ≠ (Int.ofNat col, Int.ofNat row) := by
      intro hcc
      rw [hcc] at hnp2
      have h2 : (Int.ofNat row : Int) = Int.ofNat row + 1 := hnp2
      omega
    have hdown : np.2 = (Int.ofNat col, Int.ofNat row).2 + 1 := hnp2
    refine ⟨?_, ?_, ?_, ?_, ?_⟩
    · rw [gfall_level_width]
      exact hw
    · rw [gfall_level_height]
      exact hh
    · rw [countDS_gfall s2 _ np hop hrock2 hnp hne]
      exact hc
    · intro hcc
      rw [gfall_snd] at hcc
      cases hcc
    · intro _
      refine ⟨gfall_falling s2 _ np, ?_⟩
      have hr := rockRowSum_gfall s2 (Int.ofNat col, Int.ofNat row) np hop hrock2 hnp hdown
      rcases hs2 : s2.2 with _ | _
      · rw [hfalse hs2] at hr
        omega
      · have := (htrue hs2).2
        omega

theorem rockfall_eq_false (g : Game) (h : (g.rockfallAux).2 = false) :
    g.rockfall = { (g.rockfallAux).1 with falling := false } := by
  simp only [Game.rockfall]
  rw [if_pos h]

theorem rockfall_eq_true (g : Game) (h : (g.rockfallAux).2 = true) :
    g.rockfall = (g.rockfallAux).1 := by
  simp only [Game.rockfall]
  rw [if_neg (by simp [h])]

theorem countDS_rockfall (g : Game) : countDS g.rockfall = countDS g := by
  have hinv := rockfallAux_inv g
  rcases hb : (g.rockfallAux).2 with _ | _
  · rw [rockfall_eq_false g hb, countDS_update_falling]
    exact hinv.2.2.1
  · rw [rockfall_eq_true g hb]
    exact hinv.2.2.1

theorem can_move_true_cases (g : Game) (v : Pos) (h : g.can_move v = true) :
    g.get (padd g.heroPos v) = Tile.GAP ∨ g.get (padd g.heroPos v) = Tile.EARTH ∨
    g.get (padd g.heroPos v) = Tile.DIAMOND ∨ g.get (padd g.heroPos v) = Tile.KEY ∨
    (g.get (padd g.heroPos v) = Tile.ROCK ∧
      g.get (padd g.heroPos (pmul 2 v)) = Tile.GAP) := by
  simp only [Game.can_move] at h
  by_cases c1 : g.get (padd g.heroPos v) = Tile.GAP ∨ g.get (padd g.heroPos v) = Tile.EARTH ∨
      g.get (padd g.heroPos v) = Tile.DIAMOND ∨ g.get (padd g.heroPos v) = Tile.KEY
  · tauto
  · rw [if_neg c1] at h
    by_cases c2 : g.get (padd g.heroPos v) = Tile.ROCK
    · rw [if_pos c2, Bool.and_eq_true, beq_iff_eq, beq_iff_eq] at h
      exact Or.inr (Or.inr (Or.inr (Or.inr ⟨c2, h.2⟩)))
    · rw [if_neg c2] at h
      cases h

theorem countDS_set (g : Game) (p : Pos) (t : Tile) (hp : g.inBounds p) :
    countDS (g.set p t) + wDS (g.get p) p = countDS g + wDS t p :=
  gridSum_set g wDS p t hp

/-- The effect of a validated player move on the diamond-plus-safe count:
collecting a diamond removes exactly one, every other accepted move leaves
the count unchanged. -/
theorem do_move_countDS (g : Game) (hv : g.can_move g.velocity = true) :
    (g.get (padd g.heroPos g.velocity) = Tile.DIAMOND →
      countDS g.do_move + 1 = countDS g) ∧
    (g.get (padd g.heroPos g.velocity) ≠ Tile.DIAMOND →
      countDS g.do_move = countDS g) := by
  rcases can_move_true_cases g g.velocity hv with hc | hc | hc | hc | ⟨hc, hc2⟩
  · -- destination GAP
    have hdo : g.do_move = g.set (padd g.heroPos g.velocity) Tile.GAP := by
      simp only [Game.do_move]
      rw [hc]
      simp
    have hp : g.inBounds (padd g.heroPos g.velocity) := by
      refine g.inBounds_of_get_ne_brick _ ?_
      rw [hc]
      simp
    have e := countDS_set g (padd g.heroPos g.velocity) Tile.GAP hp
    rw [hc] at e
    have w0 : wDS Tile.GAP (padd g.heroPos g.velocity) = 0 := rfl
    rw [w0] at e
    constructor
    · intro hcc
      rw [hc] at hcc
      cases hcc
    · intro _
      rw [hdo]
      omega
  · -- destination EARTH
    have hdo : g.do_move = g.set (padd g.heroPos g.velocity) Tile.GAP := by
      simp only [Game.do_move]
      rw [hc]
      simp
    have hp : g.inBounds (padd g.heroPos g.velocity) := by
      refine g.inBounds_of_get_ne_brick _ ?_
      rw [hc]
      simp
    have e := countDS_set g (padd g.heroPos g.velocity) Tile.GAP hp
    rw [hc] at e
    have w0 : wDS Tile.GAP (padd g.heroPos g.velocity) = 0 := rfl
    have w1 : wDS Tile.EARTH (padd g.heroPos g.velocity) = 0 := rfl
    rw [w0, w1] at e
    constructor
    · intro hcc
      rw [hc] at hcc
      cases hcc
    · intro _
      rw [hdo]
      omega
  · -- destination DIAMOND
    have hdo : g.do_move
        = ({ g with diamonds := g.diamonds - 1 } : Game).set
            (padd g.heroPos g.velocity) Tile.GAP := by
      simp only [Game.do_move]
      rw [hc]
      simp
    have hp : g.inBounds (padd g.heroPos g.velocity) := by
      refine g.inBounds_of_get_ne_brick _ ?_
      rw [hc]
      simp
    have hp1 : ({ g with diamonds := g.diamonds - 1 } : Game).inBounds
        (padd g.heroPos g.velocity) := hp
    have e := countDS_set ({ g with diamonds := g.diamonds - 1 } : Game)
      (padd g.heroPos g.velocity) Tile.GAP hp1
    rw [Game.get_update_diamonds, hc] at e
    have w0 : wDS Tile.GAP (padd g.heroPos g.velocity) = 0 := rfl
    have w1 : wDS Tile.DIAMOND (padd g.heroPos g.velocity) = 1 := rfl
    rw [w0, w1] at e
    have ec : countDS ({ g with diamonds := g.diamonds - 1 } : Game) = countDS g := rfl
    constructor
    · intro _
      rw [hdo]
      omega
    · intro hcc
      exact absurd hc hcc
  · -- destination KEY
    have hdo : g.do_move = (g.unlock).set (padd g.heroPos g.velocity) Tile.GAP := by
      simp only [Game.do_move]
      rw [hc]
      simp
    have hp : g.inBounds (padd g.heroPos g.velocity) := by
      refine g.inBounds_of_get_ne_brick _ ?_
      rw [hc]
      simp
    have hp1 : (g.unlock).inBounds (padd g.heroPos g.velocity) := by
      rw [inBounds_congr (g.unlock) g _ (safesToDiamonds_level_width g)
        (safesToDiamonds_level_height g)]
      exact hp
    have e := countDS_set (g.unlock) (padd g.heroPos g.velocity) Tile.GAP hp1
    have hkey : (g.unlock).get (padd g.heroPos g.velocity) = Tile.KEY := by
      show (safesToDiamonds g).get _ = Tile.KEY
      rw [get_safesToDiamonds, hc]
      rfl
    rw [hkey] at e
    have hcount : countDS g.unlock = countDS g := countDS_safesToDiamonds g
    have w0 : wDS Tile.GAP (padd g.heroPos g.velocity) = 0 := rfl
    have w1 : wDS Tile.KEY (padd g.heroPos g.velocity) = 0 := rfl
    rw [w0, w1] at e
    constructor
    · intro hcc
      rw [hc] at hcc
      cases hcc
    · intro _
      rw [hdo]
      omega
  · -- destination ROCK, pushed
    have hdo : g.do_move
        = (g.set (padd g.heroPos (pmul 2 g.velocity)) Tile.ROCK).set
            (padd g.heroPos g.velocity) Tile.GAP := by
      simp only [Game.do_move]
      rw [hc]
      simp
    have hp : g.inBounds (padd g.heroPos g.velocity) := by
      refine g.inBounds_of_get_ne_brick _ ?_
      rw [hc]
      simp
    have hp2 : g.inBounds (padd g.heroPos (pmul 2 g.velocity)) := by
      refine g.inBounds_of_get_ne_brick _ ?_
      rw [hc2]
      simp
    have hne : padd g.heroPos g.velocity ≠ padd g.heroPos (pmul 2 g.velocity) := by
      intro hcc
      rw [hcc, hc2] at hc
      cases hc
    have e1 := countDS_set g (padd g.heroPos (pmul 2 g.velocity)) Tile.ROCK hp2
    rw [hc2] at e1
    have w0 : wDS Tile.GAP (padd g.heroPos (pmul 2 g.velocity)) = 0 := rfl
    have w1 : wDS Tile.ROCK (padd g.heroPos (pmul 2 g.velocity)) = 0 := rfl
    rw [w0, w1] at e1
    have hg1 : (g.set (padd g.heroPos (pmul 2 g.velocity)) Tile.ROCK).inBounds
        (padd g.heroPos g.velocity) := hp
    have e2 := countDS_set (g.set (padd g.heroPos (pmul 2 g.velocity)) Tile.ROCK)
      (padd g.heroPos g.velocity) Tile.GAP hg1
    rw [Game.get_set_ne _ _ _ _ hne, hc] at e2
    have w2 : wDS Tile.GAP (padd g.heroPos g.velocity) = 0 := rfl
    have w3 : wDS Tile.ROCK (padd g.heroPos g.velocity) = 0 := rfl
    rw [w2, w3] at e2
    constructor
    · intro hcc
      rw [hc] at hcc
      cases hcc
    · intro _
      rw [hdo]
      omega

/-- Claim C5: the diamond-plus-safe count never increases under the core
operations: a `rockfall` physics pass and an unlock leave it unchanged, and
a validated player move leaves it unchanged except that collecting a diamond
removes exactly one. -/
theorem claim_C5 (g gm : Game) (hv : gm.can_move gm.velocity = true) :
    countDS g.rockfall = countDS g ∧
    countDS g.unlock = countDS g ∧
    (gm.get (padd gm.heroPos gm.velocity) = Tile.DIAMOND →
      countDS gm.do_move + 1 = countDS gm) ∧
    (gm.get (padd gm.heroPos gm.velocity) ≠ Tile.DIAMOND →
      countDS gm.do_move = countDS gm) :=
  ⟨countDS_rockfall g, countDS_safesToDiamonds g,
    (do_move_countDS gm hv).1, (do_move_countDS gm hv).2⟩

/-- Witness for C5: in `gameRock5` the physics pass preserves the count, and
in `gameKey5` the validated move right (onto the key) leaves the count
unchanged. -/
theorem claim_C5_witness :
    gameKey5.can_move gameKey5.velocity = true ∧
    countDS gameRock5.rockfall = countDS gameRock5 ∧
    countDS gameKey5.do_move = countDS gameKey5 := by
  have h := claim_C5 gameRock5 gameKey5 (by decide)
  exact ⟨by decide, h.1, h.2.2.2 (by decide)⟩

/-!
Claim C9: once the level is finished, `update_map` cannot kill the hero.
-/

/-- Claim C9: in `WincollGame.update_map`, if the level is already finished
(no diamonds remaining, or the hero already dead), a rock landing in the
cell directly above the hero does not set the death flag: the death flag is
exactly what it was before the pass. -/
theorem claim_C9 (g : Game) (hfin : WincollGame.finished g = true) :
    (WincollGame.update_map g).dead = g.dead := by
  have hinv : (WincollGame.updateMapAux g).1.diamonds = g.diamonds ∧
      (WincollGame.updateMapAux g).1.dead = g.dead := by
    unfold WincollGame.updateMapAux
    refine foldl_inv (fun s : Game × Bool =>
        s.1.diamonds = g.diamonds ∧ s.1.dead = g.dead) _ _ _ ⟨rfl, rfl⟩ ?_
    intro s i hi hP
    refine foldl_inv (fun s : Game × Bool =>
        s.1.diamonds = g.diamonds ∧ s.1.dead = g.dead) _ _ _ hP ?_
    intro s2 x hx hP2
    rcases wstep_cases s2 (Int.ofNat x) (Int.ofNat i + 1) with hid | ⟨op, heq, hemp, hrock, hop2⟩
    · rw [hid]
      exact hP2
    · rw [heq]
      refine ⟨?_, ?_⟩
      · rw [wfall_diamonds]
        exact hP2.1
      · rw [wfall_dead]
        have hfin2 : WincollGame.finished s2.1 = true := by
          unfold WincollGame.finished at hfin ⊢
          rw [hP2.1, hP2.2]
          exact hfin
        rw [if_neg ?_]
        · exact hP2.2
        · intro hcc
          rw [hfin2] at hcc
          cases hcc.2
  simp only [WincollGame.update_map]
  split
  case isTrue h =>
    rw [Game.set_dead]
    exact hinv.2
  case isFalse h =>
    rw [Game.set_dead]
    exact hinv.2

set_option maxRecDepth 8000 in
/-- Witness for C9: the 5x5 rock-over-hero scenario with zero diamonds
remaining: the level counts as finished, and although the rock falls to the
cell directly above the hero, the death flag stays false. -/
theorem claim_C9_witness :
    WincollGame.finished ({ gameRock5 with diamonds := 0 } : Game) = true ∧
    (WincollGame.update_map ({ gameRock5 with diamonds := 0 } : Game)).dead
      = ({ gameRock5 with diamonds := 0 } : Game).dead ∧
    (WincollGame.update_map ({ gameRock5 with diamonds := 0 } : Game)).get (2, 2)
      = Tile.ROCK := by
  refine ⟨by decide, claim_C9 _ (by decide), by decide⟩

/-!
Claim C7: the falling flag after a pass is set exactly when a rock moved.
-/

/-- Invariants of the `update_map` scan when the hero stands on an empty
cell: dimensions are preserved, the hero-marker cell keeps its marker, the
state is untouched while `new_fall` is false, and once `new_fall` is true
the falling flag is set and the rock-row measure has strictly increased. -/
theorem updateMapAux_inv (g : Game) (hhero : g.get g.heroPos = Tile.GAP) :
    (WincollGame.updateMapAux g).1.level_width = g.level_width ∧
    (WincollGame.updateMapAux g).1.level_height = g.level_height ∧
    (WincollGame.updateMapAux g).1.get g.heroPos = Tile.WIN ∧
    ((WincollGame.updateMapAux g).2 = false →
      (WincollGame.updateMapAux g).1 = g.set g.heroPos Tile.WIN) ∧
    ((WincollGame.updateMapAux g).2 = true →
      (WincollGame.updateMapAux g).1.falling = true ∧
      rockRowSum (WincollGame.updateMapAux g).1
        ≥ rockRowSum (g.set g.heroPos Tile.WIN) + 1) := by
  have hb : g.inBounds g.heroPos := by
    refine g.inBounds_of_get_ne_brick _ ?_
    rw [hhero]
    simp
  unfold WincollGame.updateMapAux
  refine foldl_inv (fun s : Game × Bool =>
      s.1.level_width = g.level_width ∧ s.1.level_height = g.level_height ∧
      s.1.get g.heroPos = Tile.WIN ∧
      (s.2 = false → s.1 = g.set g.heroPos Tile.WIN) ∧
      (s.2 = true → s.1.falling = true ∧
        rockRowSum s.1 ≥ rockRowSum (g.set g.heroPos Tile.WIN) + 1))
    _ _ _ ⟨rfl, rfl, Game.get_set_self g _ _ hb, fun _ => rfl, by simp⟩ ?_
  intro s i hi hP
  refine foldl_inv (fun s : Game × Bool =>
      s.1.level_width = g.level_width ∧ s.1.level_height = g.level_height ∧
      s.1.get g.heroPos = Tile.WIN ∧
      (s.2 = false → s.1 = g.set g.heroPos Tile.WIN) ∧
      (s.2 = true → s.1.falling = true ∧
        rockRowSum s.1 ≥ rockRowSum (g.set g.heroPos Tile.WIN) + 1))
    _ _ _ hP ?_
  intro s2 x hx hP2
  rcases wstep_cases s2 (Int.ofNat x) (Int.ofNat i + 1) with hid | ⟨op, heq, hemp, hrock, hop2⟩
  · rw [hid]
    exact hP2
  · rw [heq]
    obtain ⟨hw, hh, hHero, hfalse, htrue⟩ := hP2
    have hopb : s2.1.inBounds op := by
      refine s2.1.inBounds_of_get_ne_brick _ ?_
      rw [hrock]
      simp
    have hopne : g.heroPos ≠ op := by
      intro hcc
      rw [← hcc, hHero] at hrock
      cases hrock
    have hnpne : g.heroPos ≠ ((Int.ofNat x, Int.ofNat i + 1) : Pos) := by
      intro hcc
      rw [← hcc, hHero] at hemp
      cases hemp
    have hdown : ((Int.ofNat x, Int.ofNat i + 1) : Pos).2 = op.2 + 1 := by
      have h2 : op.2 = (Int.ofNat i + 1) - 1 := hop2
      show (Int.ofNat i + 1 : Int) = op.2 + 1
      omega
    refine ⟨?_, ?_, ?_, ?_, ?_⟩
    · rw [wfall_level_width]
      exact hw
    · rw [wfall_level_height]
      exact hh
    · rw [wfall_get_other s2 op _ g.heroPos hopne hnpne]
      exact hHero
    · intro hcc
      rw [wfall_snd] at hcc
      cases hcc
    · intro _
      refine ⟨wfall_falling _ _ _, ?_⟩
      have hr := rockRowSum_wfall s2 op (Int.ofNat x, Int.ofNat i + 1) hopb hrock hemp hdown
      rcases hs2 : s2.2 with _ | _
      · rw [hfalse hs2] at hr
        omega
      · have := (htrue hs2).2
        omega

/-- Claim C7: after a physics pass — `Game.rockfall` as well as
`WincollGame.update_map` — the session's falling flag is true exactly when
at least one rock moved during the pass, that is, exactly when the pass
changed the grid. -/
theorem claim_C7 (g : Game) (hhero : g.get g.heroPos = Tile.GAP) :
    ((g.rockfall).falling = true ↔
      ∃ p : Pos, g.inBounds p ∧ (g.rockfall).get p ≠ g.get p) ∧
    ((WincollGame.update_map g).falling = true ↔
      ∃ p : Pos, g.inBounds p ∧ (WincollGame.update_map g).get p ≠ g.get p) := by
  have hb : g.inBounds g.heroPos := by
    refine g.inBounds_of_get_ne_brick _ ?_
    rw [hhero]
    simp
  constructor
  · obtain ⟨hw, hh, hc, hfalse, htrue⟩ := rockfallAux_inv g
    rcases haux : (g.rockfallAux).2 with _ | _
    · have heq := hfalse haux
      rw [rockfall_eq_false g haux, heq]
      refine iff_of_false (by simp) ?_
      rintro ⟨p, hp, hne⟩
      exact hne (Game.get_update_falling g false p)
    · rw [rockfall_eq_true g haux]
      obtain ⟨hfall, hsum⟩ := htrue haux
      refine iff_of_true hfall ?_
      by_contra hno
      push_neg at hno
      have hsame : rockRowSum (g.rockfallAux).1 = rockRowSum g := by
        refine gridSum_congr _ _ _ hw hh fun p hp => ?_
        rw [hno p ((inBounds_congr _ g p hw hh).mp hp)]
      omega
  · obtain ⟨hw, hh, hHero, hfalse, htrue⟩ := updateMapAux_inv g hhero
    have hgs : rockRowSum (g.set g.heroPos Tile.WIN) = rockRowSum g := by
      have e := gridSum_set g wRockRow g.heroPos Tile.WIN hb
      have w0 : wRockRow (g.get g.heroPos) g.heroPos = 0 := by
        rw [hhero]
        rfl
      have w1 : wRockRow Tile.WIN g.heroPos = 0 := rfl
      rw [w0, w1] at e
      unfold rockRowSum
      omega
    have humeq : WincollGame.update_map g
        = (if (WincollGame.updateMapAux g).1.falling = true ∧
              (WincollGame.updateMapAux g).2 = false
           then { (WincollGame.updateMapAux g).1 with falling := false }
           else (WincollGame.updateMapAux g).1).set g.heroPos Tile.GAP := rfl
    rcases haux : (WincollGame.updateMapAux g).2 with _ | _
    · have heq := hfalse haux
      refine iff_of_false ?_ ?_
      · rw [humeq, Game.set_falling, heq, haux]
        split
        case isTrue hcase => simp
        case isFalse hcase =>
          intro hcc
          exact hcase ⟨hcc, rfl⟩
      · rintro ⟨p, hp, hne⟩
        apply hne
        rw [humeq, heq, haux]
        have hgety : ∀ q : Pos,
            (if (g.set g.heroPos Tile.WIN).falling = true ∧ false = false
             then { g.set g.heroPos Tile.WIN with falling := false }
             else g.set g.heroPos Tile.WIN).get q
              = (g.set g.heroPos Tile.WIN).get q := by
          intro q
          split
          · exact Game.get_update_falling _ false q
          · rfl
        by_cases hph : p = g.heroPos
        · rw [hph]
          have hbX : (if (g.set g.heroPos Tile.WIN).falling = true ∧ false = false
              then { g.set g.heroPos Tile.WIN with falling := false }
              else g.set g.heroPos Tile.WIN).inBounds g.heroPos := by
            split
            · exact hb
            · exact hb
          rw [Game.get_set_self _ _ _ hbX, hhero]
        · rw [Game.get_set_ne _ _ _ _ hph]
          rw [hgety p, Game.get_set_ne _ _ _ _ hph]
    · have heq2 : WincollGame.update_map g
          = ((WincollGame.updateMapAux g).1).set g.heroPos Tile.GAP := by
        rw [humeq, haux]
        rw [if_neg (by simp)]
      obtain ⟨hfall, hsum⟩ := htrue haux
      refine iff_of_true ?_ ?_
      · rw [heq2, Game.set_falling]
        exact hfall
      · by_contra hno
        push_neg at hno
        have hbx : (WincollGame.updateMapAux g).1.inBounds g.heroPos := by
          rw [inBounds_congr _ g _ hw hh]
          exact hb
        have e2 := gridSum_set (WincollGame.updateMapAux g).1 wRockRow
          g.heroPos Tile.GAP hbx
        rw [hHero] at e2
        have w0 : wRockRow Tile.WIN g.heroPos = 0 := rfl
        have w1 : wRockRow Tile.GAP g.heroPos = 0 := rfl
        rw [w0, w1] at e2
        have hsame : rockRowSum (WincollGame.update_map g) = rockRowSum g := by
          refine gridSum_congr _ _ _ ?_ ?_ fun p hp => ?_
          · rw [heq2, Game.set_level_width]
            exact hw
          · rw [heq2, Game.set_level_height]
            exact hh
          · have hpg : g.inBounds p := by
              refine (inBounds_congr _ g p ?_ ?_).mp hp
              · rw [heq2, Game.set_level_width]
                exact hw
              · rw [heq2, Game.set_level_height]
                exact hh
            rw [hno p hpg]
        rw [heq2] at hsame
        have e3 : rockRowSum ((WincollGame.updateMapAux g).1.set g.heroPos Tile.GAP) + 0
            = rockRowSum (WincollGame.updateMapAux g).1 + 0 := e2
        omega

/-- Witness for C7 at `gameRock5`: the hero stands on an empty cell, and the
falling-flag equivalence holds for both physics passes. -/
theorem claim_C7_witness :
    gameRock5.get gameRock5.heroPos = Tile.GAP ∧
    (((gameRock5.rockfall).falling = true ↔
      ∃ p : Pos, gameRock5.inBounds p ∧ (gameRock5.rockfall).get p ≠ gameRock5.get p) ∧
    ((WincollGame.update_map gameRock5).falling = true ↔
      ∃ p : Pos, gameRock5.inBounds p ∧
        (WincollGame.update_map gameRock5).get p ≠ gameRock5.get p)) :=
  ⟨by decide, claim_C7 gameRock5 (by decide)⟩

/-!
Claim C1: infrastructure for locating the single moving rock in the scans.
-/

theorem range_split_at (n k : Nat) (hk : k < n) :
    List.range n = List.range k ++ k :: List.range' (k + 1) (n - 1 - k) := by
  have h1 := List.range'_append 0 k (n - k) 1
  have h2 : List.range' k (n - k) = k :: List.range' (k + 1) (n - 1 - k) := by
    have h3 : n - k = (n - 1 - k) + 1 := by omega
    rw [h3, List.range'_succ]
  rw [List.range_eq_range', List.range_eq_range']
  have h4 : (n - k) + k = n := by omega
  rw [h4] at h1
  simp only [Nat.zero_add, Nat.one_mul] at h1
  rw [← h1, h2]

theorem range_reverse_split_at (n k : Nat) (hk : k < n) :
    (List.range n).reverse
      = (List.range' (k + 1) (n - 1 - k)).reverse ++ k :: (List.range k).reverse := by
  rw [range_split_at n k hk, List.reverse_append, List.reverse_cons, List.append_assoc]
  rfl

theorem rstep_id (s : Game × Bool) (col row : Int)
    (h : s.1.blocks row col ≠ Tile.ROCK) : Game.rstep s col row = s := by
  simp only [Game.rstep, if_neg h]

theorem rstep_id_rest (s : Game × Bool) (col row : Int)
    (hb : s.1.get (col, row + 1) ≠ Tile.GAP)
    (hroll : (s.1.get (col, row + 1) = Tile.ROCK ∨ s.1.get (col, row + 1) = Tile.KEY ∨
        s.1.get (col, row + 1) = Tile.DIAMOND ∨ s.1.get (col, row + 1) = Tile.BLOB) →
      s.1.can_roll (col - 1, row) = false ∧ s.1.can_roll (col + 1, row) = false) :
    Game.rstep s col row = s := by
  simp only [Game.rstep]
  by_cases h1 : s.1.blocks row col = Tile.ROCK
  · rw [if_pos h1, if_neg hb]
    by_cases h3 : s.1.get (col, row + 1) = Tile.ROCK ∨ s.1.get (col, row + 1) = Tile.KEY ∨
        s.1.get (col, row + 1) = Tile.DIAMOND ∨ s.1.get (col, row + 1) = Tile.BLOB
    · obtain ⟨hL, hR⟩ := hroll h3
      rw [if_pos h3, if_neg (by simp [hL]), if_neg (by simp [hR])]
    · rw [if_neg h3]
  · rw [if_neg h1]

theorem wstep_id (s : Game × Bool) (x y : Int)
    (h : s.1.get (x, y) = Tile.GAP →
      s.1.get (x, y - 1) ≠ Tile.ROCK ∧
      (s.1.get (x, y - 1) = Tile.GAP →
        WincollGame.rock_to_roll s.1 (x - 1, y - 1) = false ∧
        WincollGame.rock_to_roll s.1 (x + 1, y - 1) = false)) :
    WincollGame.wstep s x y = s := by
  simp only [WincollGame.wstep]
  by_cases h1 : s.1.get (x, y) = Tile.GAP
  · obtain ⟨hA, hroll⟩ := h h1
    rw [if_pos h1, if_neg hA]
    by_cases h3 : s.1.get (x, y - 1) = Tile.GAP
    · obtain ⟨hL, hR⟩ := hroll h3
      rw [if_pos h3, if_neg (by simp [hL]), if_neg (by simp [hR])]
    · rw [if_neg h3]
  · rw [if_neg h1]

theorem rock_to_roll_false_of_no_rock (g : Game) (q : Pos)
    (h : g.get q ≠ Tile.ROCK) : WincollGame.rock_to_roll g q = false := by
  simp only [WincollGame.rock_to_roll, if_neg h]

theorem rock_to_roll_false_below_empty (g : Game) (q : Pos)
    (h : g.get (q.1, q.2 + 1) = Tile.GAP) :
    WincollGame.rock_to_roll g q = false := by
  simp only [WincollGame.rock_to_roll]
  split
  · rw [h]
    rfl
  · rfl

theorem rock_to_roll_false_below_not_blocked (g : Game) (q : Pos)
    (h : ¬(g.get (q.1, q.2 + 1) = Tile.ROCK ∨ g.get (q.1, q.2 + 1) = Tile.KEY ∨
        g.get (q.1, q.2 + 1) = Tile.DIAMOND ∨ g.get (q.1, q.2 + 1) = Tile.BLOB)) :
    WincollGame.rock_to_roll g q = false := by
  simp only [WincollGame.rock_to_roll]
  split
  · rcases hbt : g.get (q.1, q.2 + 1) <;> simp [hbt] at h ⊢
  · rfl

theorem can_roll_false (g : Game) (pos : Pos)
    (h : ¬(g.get pos = Tile.GAP ∧ g.get (pos.1, pos.2 + 1) = Tile.GAP)) :
    g.can_roll pos = false := by
  unfold Game.can_roll
  by_cases h1 : g.get pos = Tile.GAP
  · have h2 : g.get (pos.1, pos.2 + 1) ≠ Tile.GAP := fun hc => h ⟨h1, hc⟩
    simp [h1, h2]
  · simp [h1]

/-- In a grid whose only rock sits over an empty cell, no rock can roll. -/
theorem rock_to_roll_false_single (g : Game) (rp : Pos)
    (hsingle : ∀ p : Pos, g.get p = Tile.ROCK → p = rp)
    (hbelow : g.get (rp.1, rp.2 + 1) = Tile.GAP) :
    ∀ q : Pos, WincollGame.rock_to_roll g q = false := by
  intro q
  by_cases hq : g.get q = Tile.ROCK
  · have hqe := hsingle q hq
    subst hqe
    exact rock_to_roll_false_below_empty g q hbelow
  · exact rock_to_roll_false_of_no_rock g q hq

theorem Game.blocks_eq_get (g : Game) (x y : Int) (h : g.inBounds (x, y)) :
    g.blocks y x = g.get (x, y) := (Game.get_eq_blocks g (x, y) h).symm

/-- In a grid with a single rock sitting over an empty cell, the `rockfall`
scan performs exactly one fall: the rock moves down one cell and nothing
else happens. -/
theorem rockfallAux_move (g : Game) (rx ry : Int)
    (hrock : g.get (rx, ry) = Tile.ROCK)
    (hsingle : ∀ p : Pos, g.get p = Tile.ROCK → p = (rx, ry))
    (hbelow : g.get (rx, ry + 1) = Tile.GAP) :
    g.rockfallAux = gfall ((g, false) : Game × Bool) (rx, ry) (rx, ry + 1) := by
  have hbr : g.inBounds (rx, ry) := by
    refine g.inBounds_of_get_ne_brick _ ?_
    rw [hrock]
    simp
  have hbb : g.inBounds (rx, ry + 1) := by
    refine g.inBounds_of_get_ne_brick _ ?_
    rw [hbelow]
    simp
  obtain ⟨hx0, hxw, hy0, hyh⟩ := hbr
  have hy1h : ry + 1 < (g.level_height : Int) := hbb.2.2.2
  have hxw2 : rx.toNat < g.level_width := by omega
  have hyh2 : ry.toNat < g.level_height := by omega
  have hxcast : (Int.ofNat rx.toNat : Int) = rx := Int.toNat_of_nonneg hx0
  have hycast : (Int.ofNat ry.toNat : Int) = ry := Int.toNat_of_nonneg hy0
  have hnorock : ∀ c r : Nat, c < g.level_width → r < g.level_height →
      ((Int.ofNat c, Int.ofNat r) : Pos) ≠ ((rx, ry) : Pos) →
      g.blocks (Int.ofNat r) (Int.ofNat c) ≠ Tile.ROCK := by
    intro c r hc hr hne hcontra
    apply hne
    refine hsingle ((Int.ofNat c, Int.ofNat r) : Pos) ?_
    rw [Game.get_eq_blocks]
    · exact hcontra
    · simp only [Game.inBounds, Int.ofNat_eq_coe]
      omega
  unfold Game.rockfallAux
  rw [range_reverse_split_at g.level_height ry.toNat hyh2]
  rw [List.foldl_append]
  have phaseA : ((List.range' (ry.toNat + 1) (g.level_height - 1 - ry.toNat)).reverse).foldl
      (fun s row => (List.range g.level_width).foldl
        (fun s2 col => Game.rstep s2 (Int.ofNat col) (Int.ofNat row)) s)
      ((g, false) : Game × Bool) = ((g, false) : Game × Bool) := by
    refine foldl_fixed _ _ _ ?_
    intro r hr
    rw [List.mem_reverse, List.mem_range'_1] at hr
    refine foldl_fixed _ _ _ ?_
    intro c hc
    rw [List.mem_range] at hc
    refine rstep_id _ _ _ ?_
    refine hnorock c r hc (by omega) ?_
    intro hcc
    have h2 : (Int.ofNat r : Int) = ry := congrArg Prod.snd hcc
    rw [Int.ofNat_eq_coe] at h2
    omega
  rw [phaseA, List.foldl_cons]
  have rowB : (List.range g.level_width).foldl
      (fun s2 col => Game.rstep s2 (Int.ofNat col) (Int.ofNat ry.toNat))
      ((g, false) : Game × Bool)
      = gfall ((g, false) : Game × Bool) (rx, ry) (rx, ry + 1) := by
    rw [range_split_at g.level_width rx.toNat hxw2, List.foldl_append, List.foldl_cons]
    have hpre : (List.range rx.toNat).foldl
        (fun s2 col => Game.rstep s2 (Int.ofNat col) (Int.ofNat ry.toNat))
        ((g, false) : Game × Bool) = ((g, false) : Game × Bool) := by
      refine foldl_fixed _ _ _ ?_
      intro c hc
      rw [List.mem_range] at hc
      refine rstep_id _ _ _ ?_
      refine hnorock c ry.toNat (by omega) hyh2 ?_
      intro hcc
      have h2 : (Int.ofNat c : Int) = rx := congrArg Prod.fst hcc
      rw [Int.ofNat_eq_coe] at h2
      omega
    rw [hpre]
    have hstep : Game.rstep ((g, false) : Game × Bool) (Int.ofNat rx.toNat) (Int.ofNat ry.toNat)
        = gfall ((g, false) : Game × Bool) (rx, ry) (rx, ry + 1) := by
      rw [hxcast, hycast]
      simp only [Game.rstep]
      have hblocksMain : g.blocks ry rx = Tile.ROCK := by
        rw [Game.blocks_eq_get g rx ry ⟨hx0, hxw, hy0, hyh⟩]
        exact hrock
      rw [if_pos hblocksMain, if_pos hbelow]
    rw [hstep]
    refine foldl_fixed _ _ _ ?_
    intro c hc
    rw [List.mem_range'_1] at hc
    refine rstep_id _ _ _ ?_
    have hcc1 : ((Int.ofNat c, Int.ofNat ry.toNat) : Pos) ≠ ((rx, ry) : Pos) := by
      intro hcc
      have h2 : (Int.ofNat c : Int) = rx := congrArg Prod.fst hcc
      rw [Int.ofNat_eq_coe] at h2
      omega
    have hcc2 : ((Int.ofNat c, Int.ofNat ry.toNat) : Pos) ≠ ((rx, ry + 1) : Pos) := by
      intro hcc
      have h2 : (Int.ofNat ry.toNat : Int) = ry + 1 := congrArg Prod.snd hcc
      rw [Int.ofNat_eq_coe] at h2
      omega
    have hbnd : (gfall ((g, false) : Game × Bool) (rx, ry) (rx, ry + 1)).1.inBounds
        (Int.ofNat c, Int.ofNat ry.toNat) := by
      rw [gfall_inBounds]
      simp only [Game.inBounds, Int.ofNat_eq_coe]
      omega
    rw [Game.blocks_eq_get _ _ _ hbnd]
    rw [gfall_get_other ((g, false) : Game × Bool) (rx, ry) (rx, ry + 1) _ hcc1 hcc2]
    intro hcontra
    exact hcc1 (hsingle _ hcontra)
  rw [rowB]
  refine foldl_fixed _ _ _ ?_
  intro r hr
  rw [List.mem_reverse, List.mem_range] at hr
  refine foldl_fixed _ _ _ ?_
  intro c hc
  rw [List.mem_range] at hc
  refine rstep_id _ _ _ ?_
  have hcc1 : ((Int.ofNat c, Int.ofNat r) : Pos) ≠ ((rx, ry) : Pos) := by
    intro hcc
    have h2 : (Int.ofNat r : Int) = ry := congrArg Prod.snd hcc
    rw [Int.ofNat_eq_coe] at h2
    omega
  have hcc2 : ((Int.ofNat c, Int.ofNat r) : Pos) ≠ ((rx, ry + 1) : Pos) := by
    intro hcc
    have h2 : (Int.ofNat r : Int) = ry + 1 := congrArg Prod.snd hcc
    rw [Int.ofNat_eq_coe] at h2
    omega
  have hbnd : (gfall ((g, false) : Game × Bool) (rx, ry) (rx, ry + 1)).1.inBounds
      (Int.ofNat c, Int.ofNat r) := by
    rw [gfall_inBounds]
    simp only [Game.inBounds, Int.ofNat_eq_coe]
    omega
  rw [Game.blocks_eq_get _ _ _ hbnd]
  rw [gfall_get_other ((g, false) : Game × Bool) (rx, ry) (rx, ry + 1) _ hcc1 hcc2]
  intro hcontra
  exact hcc1 (hsingle _ hcontra)

/-- In a grid whose single rock rests on a non-empty surface off which it
cannot roll, the `rockfall` scan does nothing. -/
theorem rockfallAux_rest (g : Game) (rx ry : Int)
    (hsingle : ∀ p : Pos, g.get p = Tile.ROCK → p = (rx, ry))
    (hbelowN : g.get (rx, ry + 1) ≠ Tile.GAP)
    (hroll : (g.get (rx, ry + 1) = Tile.ROCK ∨ g.get (rx, ry + 1) = Tile.KEY ∨
        g.get (rx, ry + 1) = Tile.DIAMOND ∨ g.get (rx, ry + 1) = Tile.BLOB) →
      ¬(g.get (rx - 1, ry) = Tile.GAP ∧ g.get (rx - 1, ry + 1) = Tile.GAP) ∧
      ¬(g.get (rx + 1, ry) = Tile.GAP ∧ g.get (rx + 1, ry + 1) = Tile.GAP)) :
    g.rockfallAux = ((g, false) : Game × Bool) := by
  unfold Game.rockfallAux
  refine foldl_fixed _ _ _ ?_
  intro r hr
  rw [List.mem_reverse, List.mem_range] at hr
  refine foldl_fixed _ _ _ ?_
  intro c hc
  rw [List.mem_range] at hc
  have hbnd : g.inBounds (Int.ofNat c, Int.ofNat r) := by
    simp only [Game.inBounds, Int.ofNat_eq_coe]
    omega
  by_cases hcr : ((Int.ofNat c, Int.ofNat r) : Pos) = ((rx, ry) : Pos)
  · have hcx : (Int.ofNat c : Int) = rx := congrArg Prod.fst hcr
    have hcy : (Int.ofNat r : Int) = ry := congrArg Prod.snd hcr
    rw [hcx, hcy]
    refine rstep_id_rest _ _ _ hbelowN ?_
    intro h3
    obtain ⟨hL, hR⟩ := hroll h3
    constructor
    · exact can_roll_false g (rx - 1, ry) hL
    · exact can_roll_false g (rx + 1, ry) hR
  · refine rstep_id _ _ _ ?_
    rw [Game.blocks_eq_get _ _ _ hbnd]
    intro hcontra
    exact hcr (hsingle _ hcontra)

/-!
Helper lemmas about the hero-marked grid `g.set g.heroPos Tile.WIN` used by
the `update_map` scan.
-/

theorem get_set_win_single (g : Game) (rp : Pos)
    (hsingle : ∀ p : Pos, g.get p = Tile.ROCK → p = rp) :
    ∀ p : Pos, (g.set g.heroPos Tile.WIN).get p = Tile.ROCK → p = rp := by
  intro p hp
  by_cases hph : p = g.heroPos
  · rw [hph] at hp
    by_cases hb : g.inBounds g.heroPos
    · rw [Game.get_set_self g g.heroPos Tile.WIN hb] at hp
      simp at hp
    · rw [Game.get_oob (g.set g.heroPos Tile.WIN) g.heroPos (fun hc => hb hc)] at hp
      simp at hp
  · rw [Game.get_set_ne g g.heroPos p Tile.WIN hph] at hp
    exact hsingle p hp

theorem get_gap_unset (g : Game) (q : Pos)
    (h : (g.set g.heroPos Tile.WIN).get q = Tile.GAP) : g.get q = Tile.GAP := by
  by_cases hq : q = g.heroPos
  · rw [hq] at h ⊢
    by_cases hb : g.inBounds g.heroPos
    · rw [Game.get_set_self g g.heroPos Tile.WIN hb] at h
      simp at h
    · rw [Game.get_oob (g.set g.heroPos Tile.WIN) g.heroPos (fun hc => hb hc)] at h
      simp at h
  · rwa [Game.get_set_ne g g.heroPos q Tile.WIN hq] at h

theorem rock_to_roll_true_elim (g : Game) (q : Pos)
    (h : WincollGame.rock_to_roll g q = true) :
    g.get q = Tile.ROCK ∧
      (g.get (q.1, q.2 + 1) = Tile.ROCK ∨ g.get (q.1, q.2 + 1) = Tile.KEY ∨
        g.get (q.1, q.2 + 1) = Tile.DIAMOND ∨ g.get (q.1, q.2 + 1) = Tile.BLOB) := by
  unfold WincollGame.rock_to_roll at h
  by_cases h1 : g.get q = Tile.ROCK
  · rw [if_pos h1] at h
    simp only [Bool.or_eq_true, beq_iff_eq] at h
    refine ⟨h1, ?_⟩
    tauto
  · rw [if_neg h1] at h
    simp at h

/-- A scan cell whose neighbourhood cannot contain the unique rock of the
grid leaves the state unchanged. -/
theorem wstep_id_single (s : Game × Bool) (rp : Pos) (x y : Int)
    (hS : ∀ p : Pos, s.1.get p = Tile.ROCK → p = rp)
    (hA : rp ≠ ((x, y - 1) : Pos))
    (hL : rp ≠ ((x - 1, y - 1) : Pos))
    (hR : rp ≠ ((x + 1, y - 1) : Pos)) :
    WincollGame.wstep s x y = s := by
  refine wstep_id s x y ?_
  intro _
  refine ⟨fun hc => hA (hS _ hc).symm, fun _ => ⟨?_, ?_⟩⟩
  · exact rock_to_roll_false_of_no_rock _ _ (fun hc => hL (hS _ hc).symm)
  · exact rock_to_roll_false_of_no_rock _ _ (fun hc => hR (hS _ hc).symm)

/-- While the unique rock of the grid rests on an empty cell, a scan step at
any cell other than the one directly below it is a no-op. -/
theorem wstep_id_pre (s : Game × Bool) (rp : Pos) (x y : Int)
    (hS : ∀ p : Pos, s.1.get p = Tile.ROCK → p = rp)
    (hbelow : s.1.get (rp.1, rp.2 + 1) = Tile.GAP)
    (hA : rp ≠ ((x, y - 1) : Pos)) :
    WincollGame.wstep s x y = s := by
  refine wstep_id s x y ?_
  intro _
  refine ⟨fun hc => hA (hS _ hc).symm, fun _ => ⟨?_, ?_⟩⟩
  · exact rock_to_roll_false_single s.1 rp hS hbelow _
  · exact rock_to_roll_false_single s.1 rp hS hbelow _

/-- In a grid with a single rock sitting over an empty cell, away from the
hero's cell below, the `update_map` scan performs exactly one fall. -/
theorem updateMapAux_move (g : Game) (rx ry : Int)
    (hrock : g.get (rx, ry) = Tile.ROCK)
    (hsingle : ∀ p : Pos, g.get p = Tile.ROCK → p = ((rx, ry) : Pos))
    (hbelow : g.get (rx, ry + 1) = Tile.GAP)
    (hheroG : g.get g.heroPos = Tile.GAP)
    (hh2 : g.heroPos ≠ ((rx, ry + 1) : Pos)) :
    WincollGame.updateMapAux g
      = wfall ((g.set g.heroPos Tile.WIN, false) : Game × Bool) (rx, ry) (rx, ry + 1) := by
  have hbr : g.inBounds (rx, ry) := by
    refine g.inBounds_of_get_ne_brick _ ?_
    rw [hrock]
    simp
  have hbb : g.inBounds (rx, ry + 1) := by
    refine g.inBounds_of_get_ne_brick _ ?_
    rw [hbelow]
    simp
  obtain ⟨hx0, hxw, hy0, hyh⟩ := hbr
  have hy1h : ry + 1 < (g.level_height : Int) := hbb.2.2.2
  have hxw2 : rx.toNat < g.level_width := by omega
  have hy1N : ry.toNat < g.level_height - 1 := by omega
  have hxcast : (Int.ofNat rx.toNat : Int) = rx := Int.toNat_of_nonneg hx0
  have hycast : (Int.ofNat ry.toNat : Int) = ry := Int.toNat_of_nonneg hy0
  have hh1 : g.heroPos ≠ ((rx, ry) : Pos) := by
    intro h
    rw [h, hrock] at hheroG
    simp at hheroG
  have hWrock : (g.set g.heroPos Tile.WIN).get (rx, ry) = Tile.ROCK := by
    rw [Game.get_set_ne g g.heroPos (rx, ry) Tile.WIN (Ne.symm hh1)]
    exact hrock
  have hWbelow : (g.set g.heroPos Tile.WIN).get (rx, ry + 1) = Tile.GAP := by
    rw [Game.get_set_ne g g.heroPos (rx, ry + 1) Tile.WIN (Ne.symm hh2)]
    exact hbelow
  have hWsingle := get_set_win_single g ((rx, ry) : Pos) hsingle
  have hnb : ((rx, ry) : Pos) ≠ ((rx, ry + 1) : Pos) := by
    intro h
    have h2 : ry = ry + 1 := congrArg Prod.snd h
    omega
  have hbrW : (g.set g.heroPos Tile.WIN).inBounds (rx, ry) := ⟨hx0, hxw, hy0, hyh⟩
  have hbbW : (g.set g.heroPos Tile.WIN).inBounds (rx, ry + 1) := hbb
  have hS' : ∀ p : Pos,
      (wfall ((g.set g.heroPos Tile.WIN, false) : Game × Bool) (rx, ry) (rx, ry + 1)).1.get p
        = Tile.ROCK → p = ((rx, ry + 1) : Pos) := by
    intro p hp
    by_cases h1 : p = ((rx, ry + 1) : Pos)
    · exact h1
    · by_cases h2 : p = ((rx, ry) : Pos)
      · rw [h2, wfall_get_op _ _ _ hnb hbrW] at hp
        simp at hp
      · rw [wfall_get_other _ _ _ _ h2 h1] at hp
        exact absurd (hWsingle p hp) h2
  unfold WincollGame.updateMapAux
  rw [range_reverse_split_at (g.level_height - 1) ry.toNat hy1N]
  rw [List.foldl_append]
  have phaseA : ((List.range' (ry.toNat + 1) (g.level_height - 1 - 1 - ry.toNat)).reverse).foldl
      (fun s i =>
        (List.range g.level_width).foldl
          (fun s2 x => WincollGame.wstep s2 (Int.ofNat x) (Int.ofNat i + 1)) s)
      ((g.set g.heroPos Tile.WIN, false) : Game × Bool)
      = ((g.set g.heroPos Tile.WIN, false) : Game × Bool) := by
    refine foldl_fixed _ _ _ ?_
    intro r hr
    rw [List.mem_reverse, List.mem_range'_1] at hr
    refine foldl_fixed _ _ _ ?_
    intro c hc
    rw [List.mem_range] at hc
    refine wstep_id_pre _ ((rx, ry) : Pos) _ _ hWsingle hWbelow ?_
    intro hcc
    have h2 : ry = (Int.ofNat r : Int) + 1 - 1 := congrArg Prod.snd hcc
    rw [Int.ofNat_eq_coe] at h2
    omega
  rw [phaseA, List.foldl_cons]
  have rowB : (List.range g.level_width).foldl
      (fun s2 x => WincollGame.wstep s2 (Int.ofNat x) (Int.ofNat ry.toNat + 1))
      ((g.set g.heroPos Tile.WIN, false) : Game × Bool)
      = wfall ((g.set g.heroPos Tile.WIN, false) : Game × Bool) (rx, ry) (rx, ry + 1) := by
    rw [range_split_at g.level_width rx.toNat hxw2, List.foldl_append, List.foldl_cons]
    have hpre : (List.range rx.toNat).foldl
        (fun s2 x => WincollGame.wstep s2 (Int.ofNat x) (Int.ofNat ry.toNat + 1))
        ((g.set g.heroPos Tile.WIN, false) : Game × Bool)
        = ((g.set g.heroPos Tile.WIN, false) : Game × Bool) := by
      refine foldl_fixed _ _ _ ?_
      intro c hc
      rw [List.mem_range] at hc
      refine wstep_id_pre _ ((rx, ry) : Pos) _ _ hWsingle hWbelow ?_
      intro hcc
      have h2 : rx = (Int.ofNat c : Int) := congrArg Prod.fst hcc
      rw [Int.ofNat_eq_coe] at h2
      omega
    rw [hpre]
    have hstep : WincollGame.wstep ((g.set g.heroPos Tile.WIN, false) : Game × Bool)
        (Int.ofNat rx.toNat) (Int.ofNat ry.toNat + 1)
        = wfall ((g.set g.heroPos Tile.WIN, false) : Game × Bool) (rx, ry) (rx, ry + 1) := by
      rw [hxcast, hycast]
      simp only [WincollGame.wstep]
      have hyy : ry + 1 - 1 = ry := by ring
      rw [hyy]
      rw [if_pos hWbelow, if_pos hWrock]
    rw [hstep]
    refine foldl_fixed _ _ _ ?_
    intro c hc
    rw [List.mem_range'_1] at hc
    refine wstep_id_single _ ((rx, ry + 1) : Pos) _ _ hS' ?_ ?_ ?_
    · intro hcc
      have h2 : ry + 1 = (Int.ofNat ry.toNat : Int) + 1 - 1 := congrArg Prod.snd hcc
      rw [Int.ofNat_eq_coe] at h2
      omega
    · intro hcc
      have h2 : ry + 1 = (Int.ofNat ry.toNat : Int) + 1 - 1 := congrArg Prod.snd hcc
      rw [Int.ofNat_eq_coe] at h2
      omega
    · intro hcc
      have h2 : ry + 1 = (Int.ofNat ry.toNat : Int) + 1 - 1 := congrArg Prod.snd hcc
      rw [Int.ofNat_eq_coe] at h2
      omega
  rw [rowB]
  refine foldl_fixed _ _ _ ?_
  intro r hr
  rw [List.mem_reverse, List.mem_range] at hr
  refine foldl_fixed _ _ _ ?_
  intro c hc
  rw [List.mem_range] at hc
  refine wstep_id_single _ ((rx, ry + 1) : Pos) _ _ hS' ?_ ?_ ?_
  · intro hcc
    have h2 : ry + 1 = (Int.ofNat r : Int) + 1 - 1 := congrArg Prod.snd hcc
    rw [Int.ofNat_eq_coe] at h2
    omega
  · intro hcc
    have h2 : ry + 1 = (Int.ofNat r : Int) + 1 - 1 := congrArg Prod.snd hcc
    rw [Int.ofNat_eq_coe] at h2
    omega
  · intro hcc
    have h2 : ry + 1 = (Int.ofNat r : Int) + 1 - 1 := congrArg Prod.snd hcc
    rw [Int.ofNat_eq_coe] at h2
    omega

/-- In a grid whose single rock rests on a non-empty surface off which it
cannot roll, the `update_map` scan does nothing. -/
theorem updateMapAux_rest (g : Game) (rx ry : Int)
    (hsingle : ∀ p : Pos, g.get p = Tile.ROCK → p = ((rx, ry) : Pos))
    (hbelowN : g.get (rx, ry + 1) ≠ Tile.GAP)
    (hroll : (g.get (rx, ry + 1) = Tile.ROCK ∨ g.get (rx, ry + 1) = Tile.KEY ∨
        g.get (rx, ry + 1) = Tile.DIAMOND ∨ g.get (rx, ry + 1) = Tile.BLOB) →
      ¬(g.get (rx - 1, ry) = Tile.GAP ∧ g.get (rx - 1, ry + 1) = Tile.GAP) ∧
      ¬(g.get (rx + 1, ry) = Tile.GAP ∧ g.get (rx + 1, ry + 1) = Tile.GAP)) :
    WincollGame.updateMapAux g = ((g.set g.heroPos Tile.WIN, false) : Game × Bool) := by
  have hWsingle := get_set_win_single g ((rx, ry) : Pos) hsingle
  unfold WincollGame.updateMapAux
  refine foldl_fixed _ _ _ ?_
  intro r hr
  rw [List.mem_reverse, List.mem_range] at hr
  refine foldl_fixed _ _ _ ?_
  intro c hc
  rw [List.mem_range] at hc
  refine wstep_id _ _ _ ?_
  intro hGap
  have hGapg := get_gap_unset g _ hGap
  constructor
  · intro hAb
    have h1 := hWsingle _ hAb
    have hcx : (Int.ofNat c : Int) = rx := congrArg Prod.fst h1
    have hcy : (Int.ofNat r : Int) + 1 - 1 = ry := congrArg Prod.snd h1
    apply hbelowN
    have he : ((Int.ofNat c, (Int.ofNat r : Int) + 1) : Pos) = ((rx, ry + 1) : Pos) := by
      rw [Prod.mk.injEq]
      rw [Int.ofNat_eq_coe] at hcx hcy
      constructor
      · simp only [Int.ofNat_eq_coe]
        omega
      · simp only [Int.ofNat_eq_coe]
        omega
    rw [← he]
    exact hGapg
  · intro hAbGap
    have hAbGapg := get_gap_unset g _ hAbGap
    constructor
    · refine Bool.eq_false_iff.mpr ?_
      intro htr
      obtain ⟨hR1, hR2⟩ := rock_to_roll_true_elim _ _ htr
      have h1 := hWsingle _ hR1
      have hcx : (Int.ofNat c : Int) - 1 = rx := congrArg Prod.fst h1
      have hcy : (Int.ofNat r : Int) + 1 - 1 = ry := congrArg Prod.snd h1
      have hR2a : (g.set g.heroPos Tile.WIN).get
          ((Int.ofNat c : Int) - 1, (Int.ofNat r : Int) + 1 - 1 + 1) = Tile.ROCK ∨
          (g.set g.heroPos Tile.WIN).get
            ((Int.ofNat c : Int) - 1, (Int.ofNat r : Int) + 1 - 1 + 1) = Tile.KEY ∨
          (g.set g.heroPos Tile.WIN).get
            ((Int.ofNat c : Int) - 1, (Int.ofNat r : Int) + 1 - 1 + 1) = Tile.DIAMOND ∨
          (g.set g.heroPos Tile.WIN).get
            ((Int.ofNat c : Int) - 1, (Int.ofNat r : Int) + 1 - 1 + 1) = Tile.BLOB := hR2
      have hpos : (((Int.ofNat c : Int) - 1, (Int.ofNat r : Int) + 1 - 1 + 1) : Pos)
          = ((rx, ry + 1) : Pos) := by
        rw [Prod.mk.injEq]
        rw [Int.ofNat_eq_coe] at hcx hcy
        constructor
        · simp only [Int.ofNat_eq_coe]
          omega
        · simp only [Int.ofNat_eq_coe]
          omega
      rw [hpos] at hR2a
      by_cases hhp : g.heroPos = ((rx, ry + 1) : Pos)
      · rw [← hhp] at hR2a
        by_cases hbh : g.inBounds g.heroPos
        · rw [Game.get_set_self g g.heroPos Tile.WIN hbh] at hR2a
          simp at hR2a
        · rw [Game.get_oob (g.set g.heroPos Tile.WIN) g.heroPos (fun hcb => hbh hcb)] at hR2a
          simp at hR2a
      · rw [Game.get_set_ne g g.heroPos (rx, ry + 1) Tile.WIN (Ne.symm hhp)] at hR2a
        obtain ⟨hLpair, hRpair⟩ := hroll hR2a
        apply hRpair
        constructor
        · have he2 : ((Int.ofNat c, (Int.ofNat r : Int) + 1 - 1) : Pos)
              = ((rx + 1, ry) : Pos) := by
            rw [Prod.mk.injEq]
            rw [Int.ofNat_eq_coe] at hcx hcy
            constructor
            · simp only [Int.ofNat_eq_coe]
              omega
            · simp only [Int.ofNat_eq_coe]
              omega
          rw [← he2]
          exact hAbGapg
        · have he3 : ((Int.ofNat c, (Int.ofNat r : Int) + 1) : Pos)
              = ((rx + 1, ry + 1) : Pos) := by
            rw [Prod.mk.injEq]
            rw [Int.ofNat_eq_coe] at hcx hcy
            constructor
            · simp only [Int.ofNat_eq_coe]
              omega
            · simp only [Int.ofNat_eq_coe]
              omega
          rw [← he3]
          exact hGapg
    · refine Bool.eq_false_iff.mpr ?_
      intro htr
      obtain ⟨hR1, hR2⟩ := rock_to_roll_true_elim _ _ htr
      have h1 := hWsingle _ hR1
      have hcx : (Int.ofNat c : Int) + 1 = rx := congrArg Prod.fst h1
      have hcy : (Int.ofNat r : Int) + 1 - 1 = ry := congrArg Prod.snd h1
      have hR2a : (g.set g.heroPos Tile.WIN).get
          ((Int.ofNat c : Int) + 1, (Int.ofNat r : Int) + 1 - 1 + 1) = Tile.ROCK ∨
          (g.set g.heroPos Tile.WIN).get
            ((Int.ofNat c : Int) + 1, (Int.ofNat r : Int) + 1 - 1 + 1) = Tile.KEY ∨
          (g.set g.heroPos Tile.WIN).get
            ((Int.ofNat c : Int) + 1, (Int.ofNat r : Int) + 1 - 1 + 1) = Tile.DIAMOND ∨
          (g.set g.heroPos Tile.WIN).get
            ((Int.ofNat c : Int) + 1, (Int.ofNat r : Int) + 1 - 1 + 1) = Tile.BLOB := hR2
      have hpos : (((Int.ofNat c : Int) + 1, (Int.ofNat r : Int) + 1 - 1 + 1) : Pos)
          = ((rx, ry + 1) : Pos) := by
        rw [Prod.mk.injEq]
        rw [Int.ofNat_eq_coe] at hcx hcy
        constructor
        · simp only [Int.ofNat_eq_coe]
          omega
        · simp only [Int.ofNat_eq_coe]
          omega
      rw [hpos] at hR2a
      by_cases hhp : g.heroPos = ((rx, ry + 1) : Pos)
      · rw [← hhp] at hR2a
        by_cases hbh : g.inBounds g.heroPos
        · rw [Game.get_set_self g g.heroPos Tile.WIN hbh] at hR2a
          simp at hR2a
        · rw [Game.get_oob (g.set g.heroPos Tile.WIN) g.heroPos (fun hcb => hbh hcb)] at hR2a
          simp at hR2a
      · rw [Game.get_set_ne g g.heroPos (rx, ry + 1) Tile.WIN (Ne.symm hhp)] at hR2a
        obtain ⟨hLpair, hRpair⟩ := hroll hR2a
        apply hLpair
        constructor
        · have he2 : ((Int.ofNat c, (Int.ofNat r : Int) + 1 - 1) : Pos)
              = ((rx - 1, ry) : Pos) := by
            rw [Prod.mk.injEq]
            rw [Int.ofNat_eq_coe] at hcx hcy
            constructor
            · simp only [Int.ofNat_eq_coe]
              omega
            · simp only [Int.ofNat_eq_coe]
              omega
          rw [← he2]
          exact hAbGapg
        · have he3 : ((Int.ofNat c, (Int.ofNat r : Int) + 1) : Pos)
              = ((rx - 1, ry + 1) : Pos) := by
            rw [Prod.mk.injEq]
            rw [Int.ofNat_eq_coe] at hcx hcy
            constructor
            · simp only [Int.ofNat_eq_coe]
              omega
            · simp only [Int.ofNat_eq_coe]
              omega
          rw [← he3]
          exact hGapg

theorem get_mark_unmark (g : Game) (hheroG : g.get g.heroPos = Tile.GAP) (q : Pos) :
    ((g.set g.heroPos Tile.WIN).set g.heroPos Tile.GAP).get q = g.get q := by
  by_cases hq : q = g.heroPos
  · rw [hq]
    by_cases hb : g.inBounds g.heroPos
    · rw [Game.get_set_self (g.set g.heroPos Tile.WIN) g.heroPos Tile.GAP hb, hheroG]
    · rw [Game.get_oob ((g.set g.heroPos Tile.WIN).set g.heroPos Tile.GAP) g.heroPos
        (fun hcb => hb hcb), Game.get_oob g g.heroPos hb]
  · rw [Game.get_set_ne (g.set g.heroPos Tile.WIN) g.heroPos q Tile.GAP hq,
      Game.get_set_ne g g.heroPos q Tile.WIN hq]

theorem gameRock5_single : ∀ p : Pos, gameRock5.get p = Tile.ROCK → p = ((2, 1) : Pos) := by
  intro p hp
  by_cases hb : gameRock5.inBounds p
  · rw [Game.get_eq_blocks gameRock5 p hb] at hp
    simp only [gameRock5] at hp
    by_cases h21 : p.1 = 2 ∧ p.2 = 1
    · rw [Prod.ext_iff]
      exact h21
    · rw [if_neg h21] at hp
      split at hp <;> simp at hp
  · rw [Game.get_oob gameRock5 p hb] at hp
    simp at hp

/-- Claim C1: in a grid containing a single rock, both physics passes move
that rock down exactly one cell when the cell below it is empty, changing no
other cell (so it never moves more than one row per pass), and leave the
whole grid unchanged once the rock rests on a non-empty surface from which
it cannot roll.  This covers `Game.rockfall` (game.py) and
`WincollGame.update_map` (wincoll_game.py); for the latter the hero stands
on an empty cell away from the cell below the rock. -/
theorem claim_C1 (g : Game) (rx ry : Int)
    (hrock : g.get (rx, ry) = Tile.ROCK)
    (hsingle : ∀ p : Pos, g.get p = Tile.ROCK → p = ((rx, ry) : Pos))
    (hheroG : g.get g.heroPos = Tile.GAP)
    (hh2 : g.heroPos ≠ ((rx, ry + 1) : Pos)) :
    (g.get (rx, ry + 1) = Tile.GAP →
      ((g.rockfall.get (rx, ry) = Tile.GAP ∧ g.rockfall.get (rx, ry + 1) = Tile.ROCK ∧
        ∀ q : Pos, q ≠ ((rx, ry) : Pos) → q ≠ ((rx, ry + 1) : Pos) →
          g.rockfall.get q = g.get q) ∧
       ((WincollGame.update_map g).get (rx, ry) = Tile.GAP ∧
        (WincollGame.update_map g).get (rx, ry + 1) = Tile.ROCK ∧
        ∀ q : Pos, q ≠ ((rx, ry) : Pos) → q ≠ ((rx, ry + 1) : Pos) →
          (WincollGame.update_map g).get q = g.get q))) ∧
    (g.get (rx, ry + 1) ≠ Tile.GAP →
      ((g.get (rx, ry + 1) = Tile.ROCK ∨ g.get (rx, ry + 1) = Tile.KEY ∨
          g.get (rx, ry + 1) = Tile.DIAMOND ∨ g.get (rx, ry + 1) = Tile.BLOB) →
        ¬(g.get (rx - 1, ry) = Tile.GAP ∧ g.get (rx - 1, ry + 1) = Tile.GAP) ∧
        ¬(g.get (rx + 1, ry) = Tile.GAP ∧ g.get (rx + 1, ry + 1) = Tile.GAP)) →
      (∀ q : Pos, g.rockfall.get q = g.get q) ∧
      (∀ q : Pos, (WincollGame.update_map g).get q = g.get q)) := by
  have hbr : g.inBounds (rx, ry) := by
    refine g.inBounds_of_get_ne_brick _ ?_
    rw [hrock]
    simp
  have hh1 : g.heroPos ≠ ((rx, ry) : Pos) := by
    intro h
    rw [h, hrock] at hheroG
    simp at hheroG
  have hnb : ((rx, ry) : Pos) ≠ ((rx, ry + 1) : Pos) := by
    intro h
    have h2 : ry = ry + 1 := congrArg Prod.snd h
    omega
  constructor
  · intro hbelow
    have hbb : g.inBounds (rx, ry + 1) := by
      refine g.inBounds_of_get_ne_brick _ ?_
      rw [hbelow]
      simp
    have hg := rockfallAux_move g rx ry hrock hsingle hbelow
    have hrf : g.rockfall = (gfall ((g, false) : Game × Bool) (rx, ry) (rx, ry + 1)).1 := by
      simp only [Game.rockfall]
      rw [hg, gfall_snd]
      simp
    have hw := updateMapAux_move g rx ry hrock hsingle hbelow hheroG hh2
    have hum : WincollGame.update_map g
        = ((wfall ((g.set g.heroPos Tile.WIN, false) : Game × Bool) (rx, ry) (rx, ry + 1)).1).set
          g.heroPos Tile.GAP := by
      simp only [WincollGame.update_map]
      rw [hw, wfall_snd]
      simp
    refine ⟨⟨?_, ?_, ?_⟩, ?_, ?_, ?_⟩
    · rw [hrf]
      exact gfall_get_op _ _ _ hnb hbr
    · rw [hrf]
      exact gfall_get_np _ _ _ hbb
    · intro q hq1 hq2
      rw [hrf]
      exact gfall_get_other _ _ _ _ hq1 hq2
    · rw [hum, Game.get_set_ne _ g.heroPos (rx, ry) Tile.GAP (Ne.symm hh1)]
      exact wfall_get_op _ _ _ hnb hbr
    · rw [hum, Game.get_set_ne _ g.heroPos (rx, ry + 1) Tile.GAP (Ne.symm hh2)]
      exact wfall_get_np _ _ _ hbb
    · intro q hq1 hq2
      rw [hum]
      by_cases hqh : q = g.heroPos
      · rw [hqh]
        by_cases hbh : g.inBounds g.heroPos
        · rw [Game.get_set_self _ g.heroPos Tile.GAP
            ((wfall_inBounds _ _ _ g.heroPos).mpr hbh), hheroG]
        · rw [Game.get_oob ((wfall ((g.set g.heroPos Tile.WIN, false) : Game × Bool)
              (rx, ry) (rx, ry + 1)).1.set g.heroPos Tile.GAP) g.heroPos
            (fun hcb => hbh ((wfall_inBounds ((g.set g.heroPos Tile.WIN, false) : Game × Bool)
              (rx, ry) (rx, ry + 1) g.heroPos).mp hcb)),
            Game.get_oob g g.heroPos hbh]
      · rw [Game.get_set_ne _ g.heroPos q Tile.GAP hqh,
          wfall_get_other _ _ _ _ hq1 hq2,
          Game.get_set_ne g g.heroPos q Tile.WIN hqh]
  · intro hbelowN hroll
    have hgr := rockfallAux_rest g rx ry hsingle hbelowN hroll
    have hrf : g.rockfall = ({ g with falling := false } : Game) := by
      simp only [Game.rockfall]
      rw [hgr]
      rfl
    have hwr := updateMapAux_rest g rx ry hsingle hbelowN hroll
    constructor
    · intro q
      rw [hrf]
      exact Game.get_update_falling g false q
    · intro q
      simp only [WincollGame.update_map]
      rw [hwr]
      split
      · exact get_mark_unmark g hheroG q
      · exact get_mark_unmark g hheroG q

/-- Witness for C1: the 5x5 scenario grid with its single rock at (2,1) and
the hero at (2,3); both passes move the rock to (2,2). -/
theorem claim_C1_witness :
    (gameRock5.get (2, 1) = Tile.ROCK ∧
      (∀ p : Pos, gameRock5.get p = Tile.ROCK → p = ((2, 1) : Pos)) ∧
      gameRock5.get gameRock5.heroPos = Tile.GAP ∧
      gameRock5.heroPos ≠ ((2, 1 + 1) : Pos)) ∧
    gameRock5.get (2, 1 + 1) = Tile.GAP ∧
    gameRock5.rockfall.get (2, 1 + 1) = Tile.ROCK ∧
    (WincollGame.update_map gameRock5).get (2, 1 + 1) = Tile.ROCK := by
  have h := claim_C1 gameRock5 2 1 (by decide) gameRock5_single (by decide) (by decide)
  exact ⟨⟨by decide, gameRock5_single, by decide, by decide⟩, by decide,
    (h.1 (by decide)).1.2.1, (h.1 (by decide)).2.2.1⟩

set_option maxRecDepth 16000 in
/-- Counterexample to claim C2: in the 5x5 scenario (rock at (2,1), hero at
(2,3), one diamond left), already the first physics pass sets the death
flag — in both implementations — while the rock lands at (2,2); the hero is
not unaffected after the first pass, and death does not wait for the pass
in which the rock would reach the hero's own cell (it never does). -/
theorem claim_C2_counterexample :
    gameRock5.physicsPass.get (2, 2) = Tile.ROCK ∧
    gameRock5.physicsPass.dead = true ∧
    (WincollGame.update_map gameRock5).get (2, 2) = Tile.ROCK ∧
    (WincollGame.update_map gameRock5).dead = true := by decide

set_option maxRecDepth 16000 in
/-- Claim C2 (amended): in the 5x5 scenario the death flag becomes true in
the pass in which the rock lands on the cell directly above the hero — the
first pass: the rock moves from (2,1) to (2,2) and `dead` is set, because
the landing cell's lower neighbour (2,3) holds the hero marker.  The rock
never enters the hero's cell: a second pass leaves the rock at (2,2), the
hero's cell empty and the flag set, in both `Game.physicsPass`
(game.py run loop) and `WincollGame.update_map`. -/
theorem claim_C2 :
    (gameRock5.physicsPass.get (2, 1) = Tile.GAP ∧
      gameRock5.physicsPass.get (2, 2) = Tile.ROCK ∧
      gameRock5.physicsPass.get (2, 3) = Tile.GAP ∧
      gameRock5.physicsPass.dead = true) ∧
    (gameRock5.physicsPass.physicsPass.get (2, 2) = Tile.ROCK ∧
      gameRock5.physicsPass.physicsPass.get (2, 3) = Tile.GAP ∧
      gameRock5.physicsPass.physicsPass.dead = true) ∧
    ((WincollGame.update_map gameRock5).get (2, 1) = Tile.GAP ∧
      (WincollGame.update_map gameRock5).get (2, 2) = Tile.ROCK ∧
      (WincollGame.update_map gameRock5).get (2, 3) = Tile.GAP ∧
      (WincollGame.update_map gameRock5).dead = true) ∧
    ((WincollGame.update_map (WincollGame.update_map gameRock5)).get (2, 2) = Tile.ROCK ∧
      (WincollGame.update_map (WincollGame.update_map gameRock5)).get (2, 3) = Tile.GAP ∧
      (WincollGame.update_map (WincollGame.update_map gameRock5)).dead = true) := by decide
